import Mathlib

/-!
Shallow embedding of the requake repeater-detection pipeline (catalog model,
FDSN-text serialization, event-pair waveform handling, catalog scanner and
family builder), translated from the Python sources under `src/requake/`.

Modelling conventions:
* Python strings are modelled as `List Char` (`Str`), so that splitting,
  joining and stripping are structural operations with decidable equality.
* Python `float` values carried in event records are modelled as `ℚ`;
  `None`-able fields are `Option`s.
* `obspy.UTCDateTime` is modelled as a calendar record `UTCTime`; comparison
  is by the lexicographic time key.  The one place where the code does real
  floating-point arithmetic on times (`generate_evid`) is modelled exactly,
  with an explicit exact-rational model of IEEE-754 binary64 rounding.
* Python exceptions are modelled with `Except`; a `for` loop whose body can
  raise is an `Except`-valued fold (`exFoldl`).
* External collaborators (obspy geodesic distance, waveform download,
  cross-correlation internals) are parameters of the definitions that call
  them, since the repository treats them as black boxes.
* `list(set(x))` iterates a Python set whose order is unspecified (string
  hashes are seed-randomized): it is modelled as the deterministic list of
  first-occurrence representatives composed with an arbitrary order choice
  `π` constrained only to produce a permutation (`OrderChoice`).
-/

namespace Requake

/-- Python strings are modelled as lists of characters. -/
abbrev Str := List Char

/-- Whitespace characters removed by Python `str.strip()` (ASCII subset). -/
def isPySpace (c : Char) : Bool :=
  c = ' ' || c = '\t' || c = '\n' || c = '\r' || c = '\x0b' || c = '\x0c'

/-- Python `str.strip()`: drop leading and trailing whitespace. -/
def pyStrip (l : Str) : Str :=
  ((l.dropWhile isPySpace).reverse.dropWhile isPySpace).reverse

/-- Python `sep.join(fields)` for a one-character separator. -/
def joinSep (sep : Char) : List Str → Str
  | [] => []
  | [f] => f
  | f :: rest => f ++ sep :: joinSep sep rest

/-- Python `s.split(sep)` for a one-character separator (no maxsplit):
`"".split(sep) = [""]`, and separators delimit possibly-empty fields. -/
def splitSep (sep : Char) (l : Str) : List Str :=
  l.foldr
    (fun c r =>
      if c = sep then [] :: r
      else
        match r with
        | [] => [[c]]
        | w :: ws => (c :: w) :: ws)
    [[]]

/-- Python `str.rjust(width, fill)`: left-pad to the given width. -/
def pyRjust (width : ℕ) (fill : Char) (s : Str) : Str :=
  List.replicate (width - s.length) fill ++ s

/-- Decimal digit character for a value below ten (as printed by `str(int)`). -/
def digitChar (n : ℕ) : Char :=
  match n with
  | 0 => '0' | 1 => '1' | 2 => '2' | 3 => '3' | 4 => '4'
  | 5 => '5' | 6 => '6' | 7 => '7' | 8 => '8' | _ => '9'

/-- Decimal rendering of a natural number, most significant digit first,
with explicit structural fuel so that the kernel can evaluate it. -/
def natToDigitsAux : ℕ → ℕ → Str
  | 0, _ => []
  | fuel + 1, n =>
    if n < 10 then [digitChar n]
    else natToDigitsAux fuel (n / 10) ++ [digitChar (n % 10)]

/-- Python `str(n)` for a natural number. -/
def natToDigits (n : ℕ) : Str := natToDigitsAux (n + 1) n

/-- Numeric value of a decimal digit character, `none` on a non-digit. -/
def digitVal? (c : Char) : Option ℕ :=
  if c = '0' then some 0 else if c = '1' then some 1
  else if c = '2' then some 2 else if c = '3' then some 3
  else if c = '4' then some 4 else if c = '5' then some 5
  else if c = '6' then some 6 else if c = '7' then some 7
  else if c = '8' then some 8 else if c = '9' then some 9 else none

/-- Decimal parsing with an accumulator; `none` on the first non-digit. -/
def digitsValAux : ℕ → Str → Option ℕ
  | acc, [] => some acc
  | acc, c :: cs =>
    match digitVal? c with
    | none => none
    | some d => digitsValAux (acc * 10 + d) cs

/-- Parse a non-empty all-digit string as a natural number. -/
def parseNatDigits (l : Str) : Option ℕ :=
  if l.isEmpty then none else digitsValAux 0 l

/-- Exception-propagating left fold: the model of a Python `for` loop whose
body may raise. -/
def exFoldl {ε α β : Type} (f : β → α → Except ε β) : β → List α → Except ε β
  | b, [] => .ok b
  | b, a :: as =>
    match f b a with
    | .error e => .error e
    | .ok b' => exFoldl f b' as

/-- Calendar instant as stored by `obspy.UTCDateTime` (microsecond
precision). -/
structure UTCTime where
  year : ℕ
  month : ℕ
  day : ℕ
  hour : ℕ
  minute : ℕ
  second : ℕ
  micro : ℕ
deriving DecidableEq, Repr

/-- Lexicographic key realizing `UTCDateTime` comparison for in-range field
values (month ≤ 12, day ≤ 31, hour ≤ 23, minute ≤ 59, second ≤ 60). -/
def UTCTime.key (t : UTCTime) : ℕ :=
  ((((t.year * 13 + t.month) * 32 + t.day) * 25 + t.hour) * 61 + t.minute)
  * 62 * 1000000 + t.second * 1000000 + t.micro

/-- Event record mirroring `RequakeEvent.__init__`
(`src/requake/catalog/catalog.py`): the FDSN-text fields plus a `trace_id`
and a correlations dictionary. -/
structure RequakeEvent where
  evid : Str := []
  orig_time : UTCTime := ⟨1970, 1, 1, 0, 0, 0, 0⟩
  lon : Option ℚ := none
  lat : Option ℚ := none
  depth : Option ℚ := none
  mag_type : Option Str := none
  mag : Option ℚ := none
  author : Option Str := none
  catalog : Option Str := none
  contributor : Option Str := none
  contributor_id : Option Str := none
  mag_author : Option Str := none
  location_name : Option Str := none
  trace_id : Option Str := none
  correlations : List (Str × ℚ) := []
deriving DecidableEq, Repr

/-- Python `RequakeEvent.__eq__`: equality on `evid` and `trace_id` only. -/
def eventPyEq (a b : RequakeEvent) : Bool :=
  a.evid == b.evid && a.trace_id == b.trace_id

/-- Python `==` on lists of events (element-wise `RequakeEvent.__eq__`). -/
def catalogPyEq : List RequakeEvent → List RequakeEvent → Bool
  | [], [] => true
  | a :: as, b :: bs => eventPyEq a b && catalogPyEq as bs
  | _, _ => false

/-- Survivors of building a Python `set` from the list and listing it:
one representative per `__eq__`-class, the first inserted, in insertion
order.  The *iteration order* of the resulting Python set is unspecified;
see `OrderChoice`. -/
def pySetOfList (l : List RequakeEvent) : List RequakeEvent :=
  l.foldl (fun acc e => if acc.any (eventPyEq e) then acc else acc ++ [e]) []

/-- An admissible iteration order for a Python set: any function that merely
permutes the list it is given.  `list(set(l))` is `π (pySetOfList l)` for
some `OrderChoice π` (string hashing is seed-randomized, so no particular
order is guaranteed). -/
def OrderChoice (π : List RequakeEvent → List RequakeEvent) : Prop :=
  ∀ l, (π l).Perm l

/-- Stable insertion by time key (model of Python's stable sort by
`ev.orig_time`). -/
def insertByTime (e : RequakeEvent) : List RequakeEvent → List RequakeEvent
  | [] => [e]
  | x :: xs =>
    if x.orig_time.key ≤ e.orig_time.key then x :: insertByTime e xs
    else e :: x :: xs

/-- `RequakeCatalog.sort`: sort events by origin time (stable). -/
def sortByTime (l : List RequakeEvent) : List RequakeEvent :=
  l.foldl (fun acc e => insertByTime e acc) []

/-- Zero-padded fixed-width decimal rendering (`strftime` field). -/
def padNat (width n : ℕ) : Str := pyRjust width '0' (natToDigits n)

/-- Rendering of `orig_time.strftime` with format string
year-month-day`T`hour:minute:second: microseconds are dropped. -/
def renderTime (t : UTCTime) : Str :=
  padNat 4 t.year ++ '-' :: padNat 2 t.month ++ '-' :: padNat 2 t.day ++
  'T' :: padNat 2 t.hour ++ ':' :: padNat 2 t.minute ++ ':' :: padNat 2 t.second

/-- Assemble a timestamp from the six parsed fields (microseconds are not
part of the rendered format and come back as zero). -/
def mkTime (y mo d h mi s : Option ℕ) : Option UTCTime :=
  match y, mo, d, h, mi, s with
  | some y, some mo, some d, some h, some mi, some s =>
    some ⟨y, mo, d, h, mi, s, 0⟩
  | _, _, _, _, _, _ => none

/-- Parsing of the canonical 19-character timestamp written by
`RequakeEvent.fdsn_text` (the `UTCDateTime` constructor accepts further
formats; the model covers the one this program writes). -/
def parseTime (l : Str) : Option UTCTime :=
  match l with
  | [y1, y2, y3, y4, '-', m1, m2, '-', d1, d2, 'T',
     h1, h2, ':', n1, n2, ':', s1, s2] =>
    mkTime (digitsValAux 0 [y1, y2, y3, y4]) (digitsValAux 0 [m1, m2])
      (digitsValAux 0 [d1, d2]) (digitsValAux 0 [h1, h2])
      (digitsValAux 0 [n1, n2]) (digitsValAux 0 [s1, s2])
  | _ => none

/-- Rendering of a rational by Python `str`.  Python renders binary floats
as decimal strings that parse back to the identical value; the model uses a
fraction notation with the same exact-round-trip property. -/
def ratRender (q : ℚ) : Str :=
  (if q < 0 then ['-'] else []) ++ natToDigits q.num.natAbs ++
  (if q.den = 1 then [] else '/' :: natToDigits q.den)

/-- Build the fraction from parsed numerator and denominator (a zero or
unparsable denominator fails, as Python `float` would). -/
def ratOfParts : Option ℕ → Option ℕ → Option ℚ
  | some n, some d => if d = 0 then none else some ((n : ℚ) / (d : ℚ))
  | _, _ => none

/-- Parse an unsigned rational in the notation produced by `ratRender`. -/
def parseNonnegRat (l : Str) : Option ℚ :=
  match splitSep '/' l with
  | [a] => (parseNatDigits a).map (fun n => (n : ℚ))
  | [a, b] => ratOfParts (parseNatDigits a) (parseNatDigits b)
  | _ => none

/-- Model of `float_or_none` (`src/requake/formulas/conversion.py`): convert
a string to a number, `none` when the conversion fails (so the literal
string rendered from Python `None` comes back as `none`). -/
def float_or_none (l : Str) : Option ℚ :=
  match l with
  | '-' :: rest => (parseNonnegRat rest).map (fun q => -q)
  | _ => parseNonnegRat l

/-- Python `str` applied to an optional number (`None` prints as `"None"`). -/
def pyStrQ (x : Option ℚ) : Str :=
  match x with
  | none => "None".data
  | some q => ratRender q

/-- Python `str` applied to an optional string (`None` prints as `"None"`). -/
def pyStrS (x : Option Str) : Str :=
  match x with
  | none => "None".data
  | some s => s

/-- `RequakeEvent.fdsn_text`: the pipe-joined 13 fields, in source order. -/
def RequakeEvent.fdsn_text (ev : RequakeEvent) : Str :=
  joinSep '|'
    [ev.evid, renderTime ev.orig_time, pyStrQ ev.lat, pyStrQ ev.lon,
     pyStrQ ev.depth, pyStrS ev.author, pyStrS ev.catalog,
     pyStrS ev.contributor, pyStrS ev.contributor_id, pyStrS ev.mag_type,
     pyStrQ ev.mag, pyStrS ev.mag_author, pyStrS ev.location_name]

/-- Error message raised by `from_fdsn_text` on a short line. -/
def invalidLineMsg : Str := "Invalid line".data

/-- Error for an unparsable timestamp (the `UTCDateTime` constructor raises
and `from_fdsn_text` does not catch it). -/
def badTimeMsg : Str := "Invalid time".data

/-- Indexing `word[i]`; a Python `IndexError` becomes the `ValueError`
`from_fdsn_text` re-raises. -/
def getWord (w : List Str) (i : ℕ) : Except Str Str :=
  match w.get? i with
  | some s => .ok s
  | none => .error invalidLineMsg

/-- The `UTCDateTime(word[1])` step: a timestamp the model cannot parse
raises. -/
def parseTimeE (s : Str) : Except Str UTCTime :=
  match parseTime s with
  | some t => Except.ok t
  | none => Except.error badTimeMsg

/-- `RequakeEvent.from_fdsn_text`: split the stripped line on pipes and
populate the 13 fields; a missing field raises `ValueError`. -/
def RequakeEvent.from_fdsn_text (line : Str) : Except Str RequakeEvent := do
  let word := splitSep '|' (pyStrip line)
  let evid ← getWord word 0
  let tstr ← getWord word 1
  let t ← parseTimeE tstr
  let w2 ← getWord word 2
  let w3 ← getWord word 3
  let w4 ← getWord word 4
  let w5 ← getWord word 5
  let w6 ← getWord word 6
  let w7 ← getWord word 7
  let w8 ← getWord word 8
  let w9 ← getWord word 9
  let w10 ← getWord word 10
  let w11 ← getWord word 11
  let w12 ← getWord word 12
  Except.ok
    { evid := evid, orig_time := t,
      lat := float_or_none w2, lon := float_or_none w3,
      depth := float_or_none w4, author := some w5, catalog := some w6,
      contributor := some w7, contributor_id := some w8,
      mag_type := some w9, mag := float_or_none w10,
      mag_author := some w11, location_name := some w12 }

/-- `RequakeCatalog.write`: one FDSN-text line per event, trailing newline,
in catalog order. -/
def catalogWrite (cat : List RequakeEvent) : List Str :=
  cat.map (fun ev => ev.fdsn_text ++ ['\n'])

/-- Body of the line loop of `RequakeCatalog.read`: skip falsy lines and
lines whose first character is `#`, parse and append the rest. -/
def readStep (acc : List RequakeEvent) (line : Str) :
    Except Str (List RequakeEvent) :=
  if line.isEmpty then .ok acc
  else if line.head? = some '#' then .ok acc
  else do
    let ev ← RequakeEvent.from_fdsn_text line
    .ok (acc ++ [ev])

/-- `RequakeCatalog.read` over the sequence of lines Python file iteration
yields (each line keeps its trailing newline): skip falsy lines and lines
whose first character is `#`, parse the rest, then deduplicate through a
Python set whose iteration order is the order choice `π`. -/
def catalogRead (π : List RequakeEvent → List RequakeEvent)
    (file : List Str) : Except Str (List RequakeEvent) := do
  let evs ← exFoldl readStep [] file
  .ok (π (pySetOfList evs))

/-- Mean of a list of rationals (`np.mean`). -/
def qMean (l : List ℚ) : ℚ := l.sum / l.length

/-- `fix_non_locatable_events` (`src/requake/catalog/catalog.py`): when some
event lacks a latitude or longitude, overwrite latitude, longitude and depth
of exactly those events with the mean station coordinates and 10 km; station
coordinates come from the metadata inventory, passed here as pairs
(latitude, longitude). -/
def fix_non_locatable_events (traceid_coords : List (ℚ × ℚ))
    (catalog : List RequakeEvent) : List RequakeEvent :=
  if ¬ catalog.any (fun ev => ev.lat.isNone || ev.lon.isNone) then catalog
  else
    let mean_lat := qMean (traceid_coords.map Prod.fst)
    let mean_lon := qMean (traceid_coords.map Prod.snd)
    catalog.map fun ev =>
      if ev.lat.isNone || ev.lon.isNone then
        { ev with lat := some mean_lat, lon := some mean_lon,
                  depth := some 10 }
      else ev

/-- Gregorian leap-year rule. -/
def isLeap (y : ℕ) : Bool := (y % 4 = 0 && y % 100 ≠ 0) || y % 400 = 0

/-- Days elapsed before the first of month `m` (1-based). -/
def daysBeforeMonth (leap : Bool) (m : ℕ) : ℕ :=
  [0, 31, 59, 90, 120, 151, 181, 212, 243, 273, 304, 334].getD (m - 1) 0 +
  (if leap && 2 < m then 1 else 0)

/-- Whole seconds from January 1 of the event's year to the event, the exact
value of `int(orig_time - UTCDateTime(year=year, month=1, day=1))` (the
fractional second is truncated by `int`). -/
def secSinceJan1 (t : UTCTime) : ℕ :=
  (daysBeforeMonth (isLeap t.year) t.month + (t.day - 1)) * 86400 +
  t.hour * 3600 + t.minute * 60 + t.second

/-- Test whether `2 ^ e ≤ n / d` using only integer comparisons. -/
def expFits (n d : ℕ) (e : ℤ) : Bool :=
  if 0 ≤ e then d * 2 ^ e.toNat ≤ n else d ≤ n * 2 ^ (-e).toNat

/-- Largest `e ∈ [-127, 127]` with `2 ^ e ≤ n / d` (binary exponent of the
positive rational `n / d`; every value in the evid pipeline is in range). -/
def floorLog2 (n d : ℕ) : ℤ :=
  (((List.range 255).map (fun i => (127 : ℤ) - i)).find? (expFits n d)).getD 0

/-- Round `q + r / d` (with `r < d`) to an integer, ties to even. -/
def roundHalfEven (q r d : ℕ) : ℕ :=
  if 2 * r < d then q
  else if d < 2 * r then q + 1
  else if q % 2 = 0 then q else q + 1

/-- Round the nonnegative rational `n / d` to the nearest IEEE-754 binary64
value (53-bit significand, round to nearest, ties to even), returned as a
dyadic pair (mantissa, exponent) with value `mantissa * 2 ^ exponent`.
Overflow and subnormals cannot occur for the magnitudes used here. -/
def roundDouble53 (n d : ℕ) : ℕ × ℤ :=
  if n = 0 then (0, 0)
  else
    let e := floorLog2 n d
    let num := n * 2 ^ (52 - e).toNat
    (roundHalfEven (num / d) (num % d) d, e - 52)

/-- Floor of the nonnegative dyadic `m * 2 ^ ex` (Python `int()` truncation
of a nonnegative float). -/
def pyFloorPos (m : ℕ) (ex : ℤ) : ℕ :=
  if 0 ≤ ex then m * 2 ^ ex.toNat else m / 2 ^ (-ex).toNat

/-- Maximum number of seconds in a leap year (`maxval` in `generate_evid`). -/
def maxvalSeconds : ℕ := 366 * 24 * 3600

/-- Exact value of `int(val / maxval * (26 ** 6 - 1))` as computed by
`generate_evid` in IEEE-754 binary64 arithmetic: the quotient is rounded to
binary64 first, the product with `26 ^ 6 - 1` is rounded again, and the
result is truncated. -/
def normvalFloat (val : ℕ) : ℕ :=
  let p1 := roundDouble53 val maxvalSeconds
  let p2 := roundDouble53 (p1.1 * (26 ^ 6 - 1)) (2 ^ (-p1.2).toNat)
  pyFloorPos p2.1 p2.2

/-- Alphabet used by `_base26`. -/
def chars26list : List Char :=
  ['a', 'b', 'c', 'd', 'e', 'f', 'g', 'h', 'i', 'j',
   'k', 'l', 'm', 'n', 'o', 'p', 'q', 'r', 's', 't',
   'u', 'v', 'w', 'x', 'y', 'z']

/-- Digit-emission loop of `_base26` (`ret = chars[val % base] + ret;
val //= base` until `val == 0`), with structural fuel. -/
def base26aux : ℕ → ℕ → Str
  | 0, _ => []
  | fuel + 1, v =>
    (if v / 26 = 0 then [] else base26aux fuel (v / 26)) ++
    [chars26list.getD (v % 26) 'a']

/-- `_base26`: at least one base-26 digit, left-padded with `a` to width 6. -/
def pyBase26 (v : ℕ) : Str := pyRjust 6 'a' (base26aux (v + 1) v)

/-- `generate_evid`: prefix, four-digit year, then `_base26` of the
float-normalized elapsed seconds. -/
def generate_evid (orig_time : UTCTime) : Str :=
  "reqk".data ++ natToDigits orig_time.year ++
  pyBase26 (normvalFloat (secSinceJan1 orig_time))

/-- Exactly-six-character base-26 encoding with alphabet `a..z`, most
significant digit first — the encoding named by the specification. -/
def base26_6 (n : ℕ) : Str :=
  [chars26list.getD (n / 26 ^ 5 % 26) 'a',
   chars26list.getD (n / 26 ^ 4 % 26) 'a',
   chars26list.getD (n / 26 ^ 3 % 26) 'a',
   chars26list.getD (n / 26 ^ 2 % 26) 'a',
   chars26list.getD (n / 26 ^ 1 % 26) 'a',
   chars26list.getD (n % 26) 'a']

/-- Value claimed by the specification for the evid payload: the exact
integer `floor(seconds) * (26 ^ 6 - 1) / 31_622_400` (integer division). -/
def claimEvidValue (val : ℕ) : ℕ := val * (26 ^ 6 - 1) / maxvalSeconds

/-- Station or epicenter coordinates (latitude, longitude) in degrees. -/
abbrev Coord := ℚ × ℚ

/-- Position of an event (the code reads `ev.lat`, `ev.lon`; claims about
station selection concern located events, for which the fields are set). -/
def evCoord (ev : RequakeEvent) : Coord := (ev.lat.getD 0, ev.lon.getD 0)

/-- First element attaining the minimum of `f`, as Python
`min(d, key=d.get)` returns the first key with minimal value. -/
def argminFirst {α : Type} (f : α → ℚ) : List α → Option α
  | [] => none
  | a :: as =>
    match argminFirst f as with
    | none => some a
    | some b => if f a ≤ f b then some a else some b

/-- `_get_trace_id` (`src/requake/waveforms/waveforms.py`): with a singleton
configured list return its element, otherwise return the metadata trace id
whose station is closest to the given event.  The geodesic distance
`gps2dist_azimuth` is an external routine, passed as the parameter `dist`
(station coordinates first, event coordinates second, as in the call). -/
def _get_trace_id (dist : Coord → Coord → ℚ)
    (traceid_coords : List (Str × Coord)) (trace_ids : List Str)
    (ev : RequakeEvent) : Option Str :=
  if trace_ids.length = 1 then trace_ids.head?
  else
    (argminFirst (fun p => dist p.2 (evCoord ev)) traceid_coords).map Prod.fst

/-- Coordinate midpoint of two epicenters; for the configurations used in
the theorems below (two points on a common great circle through the
equator) it coincides with the geodesic midpoint named by the spec. -/
def midpointCoord (a b : Coord) : Coord :=
  ((a.1 + b.1) / 2, (a.2 + b.2) / 2)

/-- Modelled from the spec (§4.5 Station selection): pick the trace id
whose station is closest to the midpoint between the two events.  This
definition follows the specification's words; it exists to be compared
with `_get_trace_id`, which is translated from the source. -/
def specStationSelection (dist : Coord → Coord → ℚ)
    (traceid_coords : List (Str × Coord)) (trace_ids : List Str)
    (ev1 ev2 : RequakeEvent) : Option Str :=
  if trace_ids.length = 1 then trace_ids.head?
  else
    (argminFirst (fun p => dist p.2 (midpointCoord (evCoord ev1) (evCoord ev2)))
      traceid_coords).map Prod.fst

/-- Waveform trace; of its obspy stats only the fields some claim observes
are kept (`evid`, and the sampling interval `delta`). -/
structure Trace where
  evid : Str := []
  delta : ℚ := 1
deriving DecidableEq, Repr

/-- Lookup in a Python dict modelled as an insertion-ordered
association list. -/
def dictFind? (k : Str) (d : List (Str × Trace)) : Option Trace :=
  (d.find? (fun p => p.1 == k)).map Prod.snd

/-- Python dict assignment `d[k] = v`. -/
def dictInsert (k : Str) (v : Trace) (d : List (Str × Trace)) :
    List (Str × Trace) :=
  if (d.find? (fun p => p.1 == k)).isSome then
    d.map (fun p => if p.1 == k then (k, v) else p)
  else d ++ [(k, v)]

/-- Python `del d[k]` wrapped in `contextlib.suppress(KeyError)`. -/
def dictErase (k : Str) (d : List (Str × Trace)) : List (Str × Trace) :=
  d.filter (fun p => ¬ p.1 == k)

/-- Module-level mutable state of `waveforms.py`: the skipped-event list,
the trace cache, and the last cache key. -/
structure WaveformState where
  skipped_evids : List Str := []
  tr_cache : List (Str × Trace) := []
  old_cache_key : Option Str := none
deriving DecidableEq, Repr

/-- Cache key `'_'.join((evid, trace_id))`. -/
def cacheKey (evid tid : Str) : Str := evid ++ '_' :: tid

/-- Message of the `NoWaveformError` raised after a failed download. -/
def noWaveformMsg : Str := "Unable to get waveform data".data

/-- Body of the `for ev in pair` loop of `get_waveform_pair` for one event:
raise for an already-skipped event, use the cached trace when present,
otherwise fetch (the download stack `get_event_waveform` is external I/O,
passed as `fetch`), caching the result; on failure record the event as
skipped before raising. -/
def processPairEvent (fetch : RequakeEvent → Option Trace)
    (cache : List (Str × Trace)) (skipped : List Str) (ev : RequakeEvent) :
    List (Str × Trace) × List Str × Except Str Trace :=
  if skipped.contains ev.evid then
    (cache, skipped, .error [])
  else
    let k := cacheKey ev.evid (ev.trace_id.getD [])
    match dictFind? k cache with
    | some tr => (cache, skipped, .ok tr)
    | none =>
      match fetch ev with
      | some tr => (dictInsert k tr cache, skipped, .ok tr)
      | none => (cache, skipped ++ [ev.evid], .error noWaveformMsg)

/-- Cache purge at the top of `get_waveform_pair`: when a previous cache
key exists and differs from the new one, `del tr_cache[cache_key]` deletes
the entry under the *new* key (with `KeyError` suppressed). -/
def purgeCache (st : WaveformState) (ck : Str) : List (Str × Trace) :=
  if st.old_cache_key ≠ none ∧ st.old_cache_key ≠ some ck then
    dictErase ck st.tr_cache
  else st.tr_cache

/-- First iteration of the `for ev in pair` loop of `get_waveform_pair`:
the purge has run, and event 1 (with the selected trace id) is processed. -/
def pairStep1 (fetch : RequakeEvent → Option Trace) (st : WaveformState)
    (ev1 : RequakeEvent) (tid : Str) :
    List (Str × Trace) × List Str × Except Str Trace :=
  processPairEvent fetch (purgeCache st (cacheKey ev1.evid tid))
    st.skipped_evids { ev1 with trace_id := some tid }

/-- Second iteration: event 2 is processed with the state the first
iteration left behind. -/
def pairStep2 (fetch : RequakeEvent → Option Trace) (st : WaveformState)
    (ev1 ev2 : RequakeEvent) (tid : Str) :
    List (Str × Trace) × List Str × Except Str Trace :=
  processPairEvent fetch (pairStep1 fetch st ev1 tid).1
    (pairStep1 fetch st ev1 tid).2.1 { ev2 with trace_id := some tid }

/-- Body of `get_waveform_pair` after the trace id has been selected: purge,
then run the two-iteration `for ev in pair` loop, threading cache and
skipped list (which persist even when the loop raises). -/
def get_waveform_pair_core (fetch : RequakeEvent → Option Trace)
    (st : WaveformState) (ev1 ev2 : RequakeEvent) (tid : Str) :
    WaveformState × Except Str (RequakeEvent × RequakeEvent × List Trace) :=
  match (pairStep1 fetch st ev1 tid).2.2 with
  | .error m =>
    (⟨(pairStep1 fetch st ev1 tid).2.1, (pairStep1 fetch st ev1 tid).1,
      some (cacheKey ev1.evid tid)⟩, .error m)
  | .ok tr1 =>
    match (pairStep2 fetch st ev1 ev2 tid).2.2 with
    | .error m =>
      (⟨(pairStep2 fetch st ev1 ev2 tid).2.1,
        (pairStep2 fetch st ev1 ev2 tid).1, some (cacheKey ev1.evid tid)⟩,
       .error m)
    | .ok tr2 =>
      (⟨(pairStep2 fetch st ev1 ev2 tid).2.1,
        (pairStep2 fetch st ev1 ev2 tid).1, some (cacheKey ev1.evid tid)⟩,
       .ok ({ ev1 with trace_id := some tid },
            { ev2 with trace_id := some tid }, [tr1, tr2]))

/-- `get_waveform_pair`: select the trace id from event 1, set it on both
events, purge the cache entry under the (new) cache key when the key
changed, then fetch the two traces through the cache.  Returns the updated
module state together with the updated events and the fetched stream. -/
def get_waveform_pair (dist : Coord → Coord → ℚ)
    (traceid_coords : List (Str × Coord)) (trace_ids : List Str)
    (fetch : RequakeEvent → Option Trace) (st : WaveformState)
    (ev1 ev2 : RequakeEvent) :
    WaveformState × Except Str (RequakeEvent × RequakeEvent × List Trace) :=
  match _get_trace_id dist traceid_coords trace_ids ev1 with
  | none => (st, .error "no trace id".data)
  | some tid => get_waveform_pair_core fetch st ev1 ev2 tid

/-- Correlation mode: `'events'` (pair mode, the default) or `'scan'`. -/
inductive CCMode
  | events
  | scan
deriving DecidableEq, Repr

/-- Warning `cc_waveform_pair` logs in pair mode on a sampling mismatch. -/
def mismatchWarning (tr1 tr2 : Trace) : Str :=
  tr1.evid ++ ' ' :: tr2.evid ++
  " - The two traces have a different sampling interval. Skipping pair.".data

/-- Outcome of `cc_waveform_pair`: the warnings logged, and either the
returned `(lag, lag_sec, cc_max)` or the exit code passed to `rq_exit`. -/
structure CCOutcome where
  warnings : List Str
  result : Except ℕ (ℤ × ℚ × ℚ)
deriving Repr

/-- `cc_waveform_pair`: on a sampling-interval mismatch, pair mode logs one
warning and falls through to the correlation, scan mode terminates through
`rq_exit(1)`.  The numeric correlation (`correlate` and `xcorr_max`, both
external) is the parameter `xcorr`; `lag_sec = lag * dt1` as in the code.
The scan-mode `cc_mad` extra is observed by no claim and omitted. -/
def cc_waveform_pair (xcorr : Trace → Trace → ℤ × ℚ) (mode : CCMode)
    (tr1 tr2 : Trace) : CCOutcome :=
  let warns :=
    if tr1.delta ≠ tr2.delta ∧ mode = .events then [mismatchWarning tr1 tr2]
    else []
  if tr1.delta ≠ tr2.delta ∧ mode = .scan then ⟨warns, .error 1⟩
  else
    let r := xcorr tr1 tr2
    ⟨warns, .ok (r.1, r.1 * tr1.delta, r.2)⟩

/-- One output row of the pair stream; of its 18 CSV columns only the two
event ids are observed by a claim, the rest carry trace metadata. -/
structure PairRow where
  evid1 : Str
  evid2 : Str
deriving DecidableEq, Repr

/-- Row-writing step of `_process_pairs` for one pair whose waveforms were
fetched: the scanner calls `cc_waveform_pair` with the default pair mode
and writes one CSV row with the returned values. -/
def _process_pairs_row (xcorr : Trace → Trace → ℤ × ℚ) (tr1 tr2 : Trace) :
    List Str × List PairRow :=
  match cc_waveform_pair xcorr .events tr1 tr2 with
  | ⟨w, .ok _⟩ => (w, [⟨tr1.evid, tr2.evid⟩])
  | ⟨w, .error _⟩ => (w, [])

/-- Iteration sequence of the scanner loop
`for pair in combinations(catalog, 2)` (`itertools.combinations` order). -/
def combinations2 {α : Type} : List α → List (α × α)
  | [] => []
  | x :: xs => xs.map (fun y => (x, y)) ++ combinations2 xs

/-- Family of repeaters: the member list (kept sorted by origin time, as
`Family.append` sorts after every insertion) and the family trace id.  The
derived aggregates the source recomputes on append (mean coordinates, time
span, magnitudes, slip) are observed by no claim and omitted. -/
structure Family where
  members : List RequakeEvent := []
  trace_id : Option Str := none
deriving DecidableEq, Repr

/-- Message of the `ValueError` raised on a trace-id mismatch. -/
def familyTraceMsg : Str :=
  "Event trace_id does not match family trace_id".data

/-- `Family.append`: a no-op for an event already in the family (Python
`in`, i.e. `__eq__` on evid and trace id); adopt the event's trace id when
the family has none; raise when the trace ids differ; otherwise insert,
keeping members sorted by origin time. -/
def Family.append (fam : Family) (ev : RequakeEvent) : Except Str Family :=
  if fam.members.any (eventPyEq ev) then .ok fam
  else if fam.trace_id = none then
    .ok { members := insertByTime ev fam.members, trace_id := ev.trace_id }
  else if ev.trace_id ≠ fam.trace_id then .error familyTraceMsg
  else .ok { members := insertByTime ev fam.members, trace_id := fam.trace_id }

/-- `Family.extend`: append each event in turn. -/
def Family.extend (fam : Family) (evs : List RequakeEvent) :
    Except Str Family :=
  exFoldl Family.append fam evs

/-- Lookup `events[evid]` in the event dictionary (insertion-ordered). -/
def eventsLookup (events : List (Str × RequakeEvent)) (k : Str) :
    Option RequakeEvent :=
  (events.find? (fun p => p.1 == k)).map Prod.snd

/-- Python `KeyError` from `events[evid]`. -/
def keyErrorMsg : Str := "KeyError".data

/-- Body of the correlations loop of the candidate-family construction:
skip sub-threshold partners, and append `events[evid]` (a missing key is a
`KeyError`). -/
def corrStep (events : List (Str × RequakeEvent)) (cc_min : ℚ)
    (fam : Family) (p : Str × ℚ) : Except Str Family :=
  if p.2 < cc_min then .ok fam
  else
    match eventsLookup events p.1 with
    | some ev2 => fam.append ev2
    | none => .error keyErrorMsg

/-- Candidate family seeded from one event: the event itself plus every
correlated event at or above the threshold. -/
def buildNewFamily (events : List (Str × RequakeEvent)) (cc_min : ℚ)
    (ev : RequakeEvent) : Except Str Family := do
  let f0 ← Family.append ⟨[], none⟩ ev
  exFoldl (corrStep events cc_min) f0 ev.correlations

/-- Nonempty intersection of two families as Python sets of events. -/
def familiesIntersect (f g : Family) : Bool :=
  f.members.any (fun m => g.members.any (eventPyEq m))

/-- Merge step of `_build_families_from_shared_events`: extend the first
existing family sharing an event with the candidate (then stop looking),
or append the candidate at the end. -/
def insertNewFamily : List Family → Family → Except Str (List Family)
  | [], nf => .ok [nf]
  | f :: fs, nf =>
    if familiesIntersect f nf then do
      let f' ← f.extend nf.members
      .ok (f' :: fs)
    else do
      let fs' ← insertNewFamily fs nf
      .ok (f :: fs')

/-- Loop body of `_build_families_from_shared_events` for one event: build
the candidate family, drop it when it stayed a singleton, otherwise merge
or append. -/
def buildStep (events : List (Str × RequakeEvent)) (cc_min : ℚ)
    (fams : List Family) (p : Str × RequakeEvent) :
    Except Str (List Family) := do
  let nf ← buildNewFamily events cc_min p.2
  if nf.members.length = 1 then .ok fams
  else insertNewFamily fams nf

/-- `_build_families_from_shared_events`
(`src/requake/families/build_families.py`): for each event build the
candidate family of its above-threshold partners, drop singletons, and
merge or append. -/
def _build_families_from_shared_events (events : List (Str × RequakeEvent))
    (cc_min : ℚ) : Except Str (List Family) :=
  exFoldl (buildStep events cc_min) [] events

/-- Python-level membership of an event in a member list (`__eq__`-based,
as used by `ev in self` and by set intersection). -/
def pyMem (e : RequakeEvent) (l : List RequakeEvent) : Prop :=
  ∃ m ∈ l, eventPyEq e m = true

/-- Fixed-width base-26 rendering: the `k` least significant base-26 digits
of `v`, most significant first. -/
def base26fix : ℕ → ℕ → Str
  | 0, _ => []
  | k + 1, v => base26fix k (v / 26) ++ [chars26list.getD (v % 26) 'a']

/-- Trace-id coherence invariant maintained by `Family.append`. -/
def FamilyCoherent (fam : Family) : Prop :=
  (fam.trace_id = none → fam.members = []) ∧
  (∀ m ∈ fam.members, m.trace_id = fam.trace_id)

/-- Character usable in a textual field without interfering with the
FDSN-text framing: not whitespace, not the field separator, not the
comment marker. -/
def cleanChar (c : Char) : Bool :=
  !(isPySpace c) && !(c == '|') && !(c == '#')

/-- Framing condition for an optional string field (`None` is rendered as
the safe literal `"None"`). -/
def cleanOptStr : Option Str → Bool
  | none => true
  | some s => s.all cleanChar

/-- Field bounds under which the rendered timestamp occupies the canonical
19 characters. -/
def GoodTime (t : UTCTime) : Prop :=
  t.year ≤ 9999 ∧ t.month ≤ 99 ∧ t.day ≤ 99 ∧ t.hour ≤ 99 ∧
  t.minute ≤ 99 ∧ t.second ≤ 99

/-- Events whose textual fields do not interfere with the FDSN-text
framing, so that one written line parses back to one event. -/
def GoodEvent (ev : RequakeEvent) : Prop :=
  ev.evid.all cleanChar = true ∧ GoodTime ev.orig_time ∧
  cleanOptStr ev.author = true ∧ cleanOptStr ev.catalog = true ∧
  cleanOptStr ev.contributor = true ∧ cleanOptStr ev.contributor_id = true ∧
  cleanOptStr ev.mag_type = true ∧ cleanOptStr ev.mag_author = true ∧
  cleanOptStr ev.location_name = true

instance decGoodTime (t : UTCTime) : Decidable (GoodTime t) := by
  unfold GoodTime
  infer_instance

instance decGoodEvent (ev : RequakeEvent) : Decidable (GoodEvent ev) := by
  unfold GoodEvent
  infer_instance

/-- The event a written FDSN-text line parses back to: microseconds and
`trace_id` and the correlations are lost, and absent (`None`) string
fields come back as the literal string `"None"`. -/
def fdsnRoundTrip (ev : RequakeEvent) : RequakeEvent :=
  { evid := ev.evid, orig_time := { ev.orig_time with micro := 0 },
    lat := ev.lat, lon := ev.lon, depth := ev.depth,
    mag_type := some (pyStrS ev.mag_type), mag := ev.mag,
    author := some (pyStrS ev.author), catalog := some (pyStrS ev.catalog),
    contributor := some (pyStrS ev.contributor),
    contributor_id := some (pyStrS ev.contributor_id),
    mag_author := some (pyStrS ev.mag_author),
    location_name := some (pyStrS ev.location_name),
    trace_id := none, correlations := [] }

/-- Fixture event carrying a `trace_id`, which `fdsn_text` does not
serialize. -/
def evT : RequakeEvent :=
  { evid := "x".data, trace_id := some "X".data }

/-- Fixture event `x`, correlated with `y` at cc 1. -/
def evX : RequakeEvent :=
  { evid := "x".data, orig_time := ⟨2021, 1, 1, 0, 0, 0, 0⟩,
    trace_id := some "T".data, correlations := [("y".data, 1)] }

/-- Fixture event `y`, correlated with `x` at cc 1. -/
def evY : RequakeEvent :=
  { evid := "y".data, orig_time := ⟨2021, 1, 2, 0, 0, 0, 0⟩,
    trace_id := some "T".data, correlations := [("x".data, 1)] }

/-- Fixture event dictionary holding `evX` and `evY`. -/
def eventsXY : List (Str × RequakeEvent) :=
  [("x".data, evX), ("y".data, evY)]

/-- The single family the builder returns on `eventsXY`. -/
def famXY : Family := ⟨[evX, evY], some "T".data⟩

/-- Concrete FDSN-text fixture line for an event on 2021-01-01. -/
def evLine1 : Str :=
  "e1|2021-01-01T00:00:00|None|None|None|a|b|c|d|e|None|f|g".data ++ ['\n']

/-- Concrete FDSN-text fixture line for an event on 2021-01-02. -/
def evLine2 : Str :=
  "e2|2021-01-02T00:00:00|None|None|None|a|b|c|d|e|None|f|g".data ++ ['\n']

/-- The event `evLine1` parses to. -/
def evA : RequakeEvent :=
  { evid := "e1".data, orig_time := ⟨2021, 1, 1, 0, 0, 0, 0⟩,
    author := some "a".data, catalog := some "b".data,
    contributor := some "c".data, contributor_id := some "d".data,
    mag_type := some "e".data, mag_author := some "f".data,
    location_name := some "g".data }

/-- The event `evLine2` parses to. -/
def evB : RequakeEvent :=
  { evid := "e2".data, orig_time := ⟨2021, 1, 2, 0, 0, 0, 0⟩,
    author := some "a".data, catalog := some "b".data,
    contributor := some "c".data, contributor_id := some "d".data,
    mag_type := some "e".data, mag_author := some "f".data,
    location_name := some "g".data }

/-! ### General lemmas about the embedded operations -/

theorem getElem?_fix_non_locatable (coords : List (ℚ × ℚ))
    (catalog : List RequakeEvent) (i : ℕ) :
    (fix_non_locatable_events coords catalog)[i]? =
      if catalog.any (fun ev => ev.lat.isNone || ev.lon.isNone) then
        (catalog[i]?.map fun ev =>
          if ev.lat.isNone || ev.lon.isNone then
            { ev with lat := some (qMean (coords.map Prod.fst)),
                      lon := some (qMean (coords.map Prod.snd)),
                      depth := some 10 }
          else ev)
      else catalog[i]? := by
  unfold fix_non_locatable_events
  by_cases h : catalog.any (fun ev => ev.lat.isNone || ev.lon.isNone)
  · simp [h, List.getElem?_map]
  · simp [h]

/-- C10: `fix_non_locatable_events` overwrites latitude, longitude and
depth of exactly the events missing a latitude or a longitude (with the
mean station coordinates and a depth of 10 km), leaves every fully located
event unchanged, and leaves the whole catalog unchanged when no event is
missing a coordinate. -/
theorem C10_fix_non_locatable_frame (coords : List (ℚ × ℚ))
    (catalog : List RequakeEvent) :
    ((∀ ev ∈ catalog, ev.lat ≠ none ∧ ev.lon ≠ none) →
      fix_non_locatable_events coords catalog = catalog)
    ∧ (∀ (i : ℕ) (ev : RequakeEvent),
        catalog[i]? = some ev → ev.lat ≠ none → ev.lon ≠ none →
        (fix_non_locatable_events coords catalog)[i]? = some ev)
    ∧ (∀ (i : ℕ) (ev : RequakeEvent),
        catalog[i]? = some ev → (ev.lat = none ∨ ev.lon = none) →
        (fix_non_locatable_events coords catalog)[i]? =
          some { ev with lat := some (qMean (coords.map Prod.fst)),
                         lon := some (qMean (coords.map Prod.snd)),
                         depth := some 10 }) := by
  refine ⟨?_, ?_, ?_⟩
  · intro hall
    unfold fix_non_locatable_events
    have h : catalog.any (fun ev => ev.lat.isNone || ev.lon.isNone) = false := by
      simp only [List.any_eq_false]
      intro ev hev
      rcases hall ev hev with ⟨h1, h2⟩
      simp [Option.isNone_iff_eq_none, h1, h2]
    simp [h]
  · intro i ev hev h1 h2
    rw [getElem?_fix_non_locatable]
    have hnone1 : ev.lat.isNone = false := by
      cases hl : ev.lat with
      | none => exact absurd hl h1
      | some q => rfl
    have hnone2 : ev.lon.isNone = false := by
      cases hl : ev.lon with
      | none => exact absurd hl h2
      | some q => rfl
    have hcond : ¬ ((ev.lat.isNone || ev.lon.isNone) = true) := by
      rw [hnone1, hnone2]
      simp
    split
    · rw [hev]
      simp only [Option.map_some']
      rw [if_neg hcond]
    · exact hev
  · intro i ev hev hmiss
    have hmem : ev ∈ catalog := by
      rcases List.getElem?_eq_some.mp hev with ⟨hlt, hg⟩
      exact hg ▸ List.getElem_mem hlt
    have hany : catalog.any (fun ev => ev.lat.isNone || ev.lon.isNone) = true := by
      simp only [List.any_eq_true]
      refine ⟨ev, hmem, ?_⟩
      rcases hmiss with h | h <;> simp [h]
    have hcond : (ev.lat.isNone || ev.lon.isNone) = true := by
      rcases hmiss with h | h <;> simp [h]
    rw [getElem?_fix_non_locatable, if_pos hany, hev]
    simp only [Option.map_some']
    rw [if_pos hcond]

/-- C2: behavior of pair-mode and scan-mode correlation on two traces with
different sampling intervals (1 s and 2 s).  Pair mode logs exactly one
warning whose text announces a skip, but the function falls through and the
catalog scanner still writes the CSV row for the pair; scan mode terminates
the run through `rq_exit(1)`. -/
theorem C2_sampling_mismatch_behavior :
    (_process_pairs_row (fun _ _ => ((0 : ℤ), (0 : ℚ)))
        { evid := ['a'], delta := 1 } { evid := ['b'], delta := 2 }).1.length
      = 1
    ∧ (_process_pairs_row (fun _ _ => ((0 : ℤ), (0 : ℚ)))
        { evid := ['a'], delta := 1 } { evid := ['b'], delta := 2 }).2 =
      [⟨['a'], ['b']⟩]
    ∧ (cc_waveform_pair (fun _ _ => ((0 : ℤ), (0 : ℚ))) .scan
        { evid := ['a'], delta := 1 } { evid := ['b'], delta := 2 }).result =
      .error 1 := by
  refine ⟨rfl, rfl, rfl⟩

/-- C8: behavior of `RequakeCatalog.read` on comment and blank lines, at a
concrete file.  A line starting with `#` is skipped; but a blank line
(which Python file iteration yields as the one-character string containing
a newline) passes the falsy-line guard, reaches `from_fdsn_text`, and makes
the read raise `ValueError` — the guard `if not line` can never fire
because iterated lines keep their newline. -/
theorem C8_read_comment_and_blank_lines :
    catalogRead (fun l => l)
      ["#comment".data ++ ['\n'],
       "e1|2021-01-03T08:23:28|None|None|None|a|b|c|d|e|None|f|g".data
         ++ ['\n']] =
      .ok [{ evid := "e1".data, orig_time := ⟨2021, 1, 3, 8, 23, 28, 0⟩,
             author := some "a".data, catalog := some "b".data,
             contributor := some "c".data, contributor_id := some "d".data,
             mag_type := some "e".data, mag_author := some "f".data,
             location_name := some "g".data }]
    ∧ catalogRead (fun l => l)
      ["e1|2021-01-03T08:23:28|None|None|None|a|b|c|d|e|None|f|g".data
         ++ ['\n'],
       ['\n']] =
      .error invalidLineMsg
    ∧ (['\n'] : Str).isEmpty = false := by
  refine ⟨rfl, rfl, rfl⟩

theorem base26fix_zero (k : ℕ) : base26fix k 0 = List.replicate k 'a' := by
  induction k with
  | zero => rfl
  | succ k ih =>
    show base26fix k (0 / 26) ++ ['a'] = _
    rw [Nat.zero_div, ih, List.replicate_succ']

theorem base26fix_six (v : ℕ) : base26fix 6 v = base26_6 v := by
  show base26fix 5 (v / 26) ++ _ = _
  simp only [base26fix, base26_6, Nat.div_div_eq_div_mul]
  norm_num

theorem pyRjust_snoc (k : ℕ) (c : Char) (l : Str) (x : Char) :
    pyRjust (k + 1) c (l ++ [x]) = pyRjust k c l ++ [x] := by
  unfold pyRjust
  rw [List.length_append, List.length_singleton, List.append_assoc]
  have h : k + 1 - (l.length + 1) = k - l.length := by omega
  rw [h]

theorem base26aux_pad (k : ℕ) : ∀ fuel v, v < fuel → v < 26 ^ k → 0 < k →
    pyRjust k 'a' (base26aux fuel v) = base26fix k v := by
  induction k with
  | zero =>
    intro fuel v h1 h2 h3
    omega
  | succ k ih =>
    intro fuel v hfuel hlt _
    match fuel, hfuel with
    | fuel + 1, hfuel =>
      by_cases hz : v / 26 = 0
      · have hv26 : v < 26 := by omega
        show pyRjust (k + 1) 'a'
          ((if v / 26 = 0 then [] else base26aux fuel (v / 26)) ++ _) = _
        rw [if_pos hz]
        show pyRjust (k + 1) 'a' [chars26list.getD (v % 26) 'a'] = _
        unfold pyRjust
        show List.replicate (k + 1 - 1) 'a' ++ _ = _
        unfold base26fix
        rw [hz, base26fix_zero]
        simp
      · have h26v : 26 ≤ v := by
          by_contra hc
          exact hz (Nat.div_eq_of_lt (by omega))
        rcases Nat.eq_zero_or_pos k with hk | hk
        · subst hk
          omega
        have hdivfuel : v / 26 < fuel := by
          have h1 : v / 26 < v := Nat.div_lt_self (by omega) (by omega)
          omega
        have hdivlt : v / 26 < 26 ^ k := by
          rw [pow_succ] at hlt
          exact Nat.div_lt_of_lt_mul (by omega)
        show pyRjust (k + 1) 'a'
          ((if v / 26 = 0 then [] else base26aux fuel (v / 26)) ++ _) = _
        rw [if_neg hz, pyRjust_snoc, ih fuel (v / 26) hdivfuel hdivlt hk]
        rfl

theorem pyBase26_eq_base26_6 (v : ℕ) (h : v < 26 ^ 6) :
    pyBase26 v = base26_6 v := by
  rw [← base26fix_six]
  exact base26aux_pad 6 (v + 1) v (Nat.lt_succ_self v) h (by omega)

/-- C7 counterexample: at origin time 2021-01-03T08:23:28 (whole seconds
since January 1: 203008) the evid payload computed by `generate_evid`
differs from the six-character base-26 encoding of the exact integer
`floor(seconds) * (26 ^ 6 - 1) / 31_622_400` stated by the claim: the
floating-point evaluation `int(val / maxval * (26 ** 6 - 1))` lands one
below the exact quotient. -/
theorem C7_generate_evid_counterexample :
    generate_evid ⟨2021, 1, 3, 8, 23, 28, 0⟩ ≠
      "reqk".data ++ natToDigits 2021 ++
        base26_6 (claimEvidValue (secSinceJan1 ⟨2021, 1, 3, 8, 23, 28, 0⟩)) := by
  decide

/-- C7 amended: `generate_evid` returns `"reqk"`, the year, then the
six-character base-26 encoding (alphabet a..z, left-padded with `a`) of the
IEEE-double evaluation of `floor(seconds since January 1) * (26^6 − 1) /
31,622,400` (quotient first, each operation rounded to binary64, result
truncated), which at some inputs is one less than the exact integer value;
equal origin times yield the identical event id. -/
theorem C7_generate_evid_amended (t : UTCTime)
    (h : normvalFloat (secSinceJan1 t) < 26 ^ 6) :
    generate_evid t =
      "reqk".data ++ natToDigits t.year ++
        base26_6 (normvalFloat (secSinceJan1 t))
    ∧ ∀ t' : UTCTime, t' = t → generate_evid t' = generate_evid t := by
  constructor
  · unfold generate_evid
    rw [pyBase26_eq_base26_6 _ h]
  · intro t' ht
    rw [ht]

/-- Witness for C7 at the counterexample's origin time. -/
theorem C7_generate_evid_amended_witness :
    normvalFloat (secSinceJan1 ⟨2021, 1, 3, 8, 23, 28, 0⟩) < 26 ^ 6
    ∧ generate_evid ⟨2021, 1, 3, 8, 23, 28, 0⟩ =
      "reqk".data ++ natToDigits 2021 ++
        base26_6 (normvalFloat (secSinceJan1 ⟨2021, 1, 3, 8, 23, 28, 0⟩)) :=
  ⟨by decide, (C7_generate_evid_amended ⟨2021, 1, 3, 8, 23, 28, 0⟩ (by decide)).1⟩

theorem insertByTime_cons (e x : RequakeEvent) (xs : List RequakeEvent) :
    insertByTime e (x :: xs) =
      if x.orig_time.key ≤ e.orig_time.key then x :: insertByTime e xs
      else e :: x :: xs := rfl

theorem mem_insertByTime (e a : RequakeEvent) :
    ∀ l : List RequakeEvent, a ∈ insertByTime e l ↔ a = e ∨ a ∈ l := by
  intro l
  induction l with
  | nil => simp [insertByTime]
  | cons x xs ih =>
    rw [insertByTime_cons]
    by_cases h : x.orig_time.key ≤ e.orig_time.key
    · rw [if_pos h]
      rw [List.mem_cons, ih, List.mem_cons]
      exact or_left_comm
    · rw [if_neg h]
      exact List.mem_cons

theorem append_coherent (fam : Family) (ev : RequakeEvent) (fam' : Family)
    (hinv : FamilyCoherent fam) (hev : ev.trace_id ≠ none)
    (happ : fam.append ev = .ok fam') : FamilyCoherent fam' := by
  unfold Family.append at happ
  by_cases hin : fam.members.any (eventPyEq ev)
  · rw [if_pos hin] at happ
    cases happ
    exact hinv
  · rw [if_neg hin] at happ
    by_cases htid : fam.trace_id = none
    · rw [if_pos htid] at happ
      cases happ
      have hmem : fam.members = [] := hinv.1 htid
      constructor
      · intro h
        exact absurd h hev
      · intro m hm
        rw [hmem] at hm
        rcases (mem_insertByTime ev m []).mp hm with h | h
        · rw [h]
        · simp at h
    · rw [if_neg htid] at happ
      by_cases heq : ev.trace_id ≠ fam.trace_id
      · rw [if_pos heq] at happ
        cases happ
      · rw [if_neg heq] at happ
        cases happ
        push_neg at heq
        constructor
        · intro h
          exact absurd h htid
        · intro m hm
          rcases (mem_insertByTime ev m fam.members).mp hm with h | h
          · rw [h]
            exact heq
          · exact hinv.2 m h

theorem extend_coherent (evs : List RequakeEvent) :
    ∀ (fam fam' : Family), FamilyCoherent fam →
    (∀ e ∈ evs, e.trace_id ≠ none) →
    Family.extend fam evs = .ok fam' → FamilyCoherent fam' := by
  induction evs with
  | nil =>
    intro fam fam' hinv _ hext
    cases hext
    exact hinv
  | cons e es ih =>
    intro fam fam' hinv hall hext
    unfold Family.extend exFoldl at hext
    cases happ : Family.append fam e with
    | error m =>
      rw [happ] at hext
      cases hext
    | ok fam1 =>
      rw [happ] at hext
      exact ih fam1 fam'
        (append_coherent fam e fam1 hinv (hall e (by simp)) happ)
        (fun x hx => hall x (by simp [hx])) hext

/-- C9 counterexample: appending an event with no trace id and then an
event with trace id `X` both succeed, yet the resulting family's members do
not share one trace id — the family trace id is only adopted, never checked
against earlier members with `None`. -/
theorem C9_family_append_counterexample :
    Family.extend ⟨[], none⟩
      [{ evid := ['a'] }, { evid := ['b'], trace_id := some ['X'] }] =
      .ok ⟨[{ evid := ['a'] }, { evid := ['b'], trace_id := some ['X'] }],
           some ['X']⟩
    ∧ ({ evid := ['a'] } : RequakeEvent).trace_id ≠
      ({ evid := ['b'], trace_id := some ['X'] } : RequakeEvent).trace_id :=
  ⟨rfl, by decide⟩

/-- C9 amended: `Family.append` raises exactly when the event is not
already a member, the family's trace id is assigned (not `None`), and the
event's trace id differs from it; consequently any sequence of successful
appends (starting from a fresh family) of events that all carry a trace id
leaves all members sharing one trace id. -/
theorem C9_family_append_amended :
    (∀ (fam : Family) (ev : RequakeEvent),
      fam.append ev = .error familyTraceMsg ↔
        fam.members.any (eventPyEq ev) = false ∧
        fam.trace_id ≠ none ∧ ev.trace_id ≠ fam.trace_id)
    ∧ (∀ (evs : List RequakeEvent) (fam' : Family),
        (∀ e ∈ evs, e.trace_id ≠ none) →
        Family.extend ⟨[], none⟩ evs = .ok fam' →
        ∀ a ∈ fam'.members, ∀ b ∈ fam'.members, a.trace_id = b.trace_id) := by
  constructor
  · intro fam ev
    unfold Family.append
    constructor
    · intro h
      by_cases hin : fam.members.any (eventPyEq ev)
      · rw [if_pos hin] at h
        cases h
      · rw [if_neg hin] at h
        by_cases htid : fam.trace_id = none
        · rw [if_pos htid] at h
          cases h
        · rw [if_neg htid] at h
          by_cases heq : ev.trace_id ≠ fam.trace_id
          · exact ⟨by simpa using hin, htid, heq⟩
          · rw [if_neg heq] at h
            cases h
    · rintro ⟨h1, h2, h3⟩
      rw [if_neg (by simp [h1]), if_neg h2, if_pos h3]
  · intro evs fam' hall hext a ha b hb
    have hinv : FamilyCoherent fam' :=
      extend_coherent evs ⟨[], none⟩ fam' ⟨fun _ => rfl, by simp⟩ hall hext
    rw [hinv.2 a ha, hinv.2 b hb]

/-- Witness for C9: a concrete mismatched append raises, and a concrete
two-event extension with a common trace id leaves the trace ids equal. -/
theorem C9_family_append_amended_witness :
    Family.append ⟨[{ evid := ['a'], trace_id := some ['X'] }], some ['X']⟩
      { evid := ['b'], trace_id := some ['Y'] } = .error familyTraceMsg
    ∧ ({ evid := ['a'], trace_id := some ['X'] } : RequakeEvent).trace_id =
      ({ evid := ['b'], trace_id := some ['X'] } : RequakeEvent).trace_id :=
  ⟨(C9_family_append_amended.1 _ _).mpr ⟨by decide, by decide, by decide⟩,
   C9_family_append_amended.2
     [{ evid := ['a'], trace_id := some ['X'] },
      { evid := ['b'], trace_id := some ['X'] }]
     ⟨[{ evid := ['a'], trace_id := some ['X'] },
       { evid := ['b'], trace_id := some ['X'] }], some ['X']⟩
     (by decide) rfl
     { evid := ['a'], trace_id := some ['X'] } (by simp)
     { evid := ['b'], trace_id := some ['X'] } (by simp)⟩

theorem dictFind?_nil (k : Str) : dictFind? k [] = none := rfl

theorem dictFind?_cons (k k' : Str) (v : Trace) (d : List (Str × Trace)) :
    dictFind? k ((k', v) :: d) =
      if k' == k then some v else dictFind? k d := by
  unfold dictFind?
  by_cases h : (k' == k) = true
  · rw [List.find?_cons_of_pos _ (by simpa using h), if_pos h]
    rfl
  · rw [List.find?_cons_of_neg _ (by simpa using h), if_neg h]

theorem find?_append_single_other (k k' : Str) (v : Trace)
    (h : (k' == k) = false) :
    ∀ d : List (Str × Trace), dictFind? k (d ++ [(k', v)]) = dictFind? k d := by
  intro d
  induction d with
  | nil =>
    rw [List.nil_append, dictFind?_cons, if_neg (by simp [h])]
  | cons p ps ih =>
    rcases p with ⟨pk, pv⟩
    rw [List.cons_append, dictFind?_cons, dictFind?_cons]
    by_cases hq : (pk == k) = true
    · rw [if_pos hq, if_pos hq]
    · rw [if_neg hq, if_neg hq, ih]

theorem find?_append_single_self (k : Str) (v : Trace) :
    ∀ d : List (Str × Trace), dictFind? k d = none →
    dictFind? k (d ++ [(k, v)]) = some v := by
  intro d
  induction d with
  | nil =>
    intro _
    rw [List.nil_append, dictFind?_cons, if_pos (by simp)]
  | cons p ps ih =>
    intro hn
    rcases p with ⟨pk, pv⟩
    rw [dictFind?_cons] at hn
    by_cases hq : (pk == k) = true
    · rw [if_pos hq] at hn
      cases hn
    · rw [if_neg hq] at hn
      rw [List.cons_append, dictFind?_cons, if_neg hq, ih hn]

theorem dictFind?_isSome_iff (k : Str) (d : List (Str × Trace)) :
    (d.find? (fun p => p.1 == k)).isSome = true ↔ dictFind? k d ≠ none := by
  unfold dictFind?
  cases d.find? (fun p => p.1 == k) <;> simp

theorem dictFind?_insert_fresh_self (k : Str) (v : Trace)
    (d : List (Str × Trace)) (hn : dictFind? k d = none) :
    dictFind? k (dictInsert k v d) = some v := by
  unfold dictInsert
  have hk : ¬ (d.find? (fun p => p.1 == k)).isSome = true := by
    intro hc
    exact (dictFind?_isSome_iff k d).mp hc hn
  rw [if_neg hk]
  exact find?_append_single_self k v d hn

theorem dictFind?_insert_fresh_other (k k' : Str) (v : Trace)
    (d : List (Str × Trace)) (hn : dictFind? k' d = none) (h : k ≠ k') :
    dictFind? k (dictInsert k' v d) = dictFind? k d := by
  have hb : (k' == k) = false := by
    simp only [beq_eq_false_iff_ne]
    exact fun hc => h hc.symm
  unfold dictInsert
  have hk : ¬ (d.find? (fun p => p.1 == k')).isSome = true := by
    intro hc
    exact (dictFind?_isSome_iff k' d).mp hc hn
  rw [if_neg hk]
  exact find?_append_single_other k k' v hb d

theorem dictFind?_erase_other (k k' : Str) (d : List (Str × Trace))
    (h : k ≠ k') :
    dictFind? k (dictErase k' d) = dictFind? k d := by
  have hb : ∀ pk : Str, (pk == k') = true → (pk == k) = false := by
    intro pk hpk
    simp only [beq_eq_false_iff_ne]
    intro hc
    rw [hc] at hpk
    exact h ((by simpa using hpk : k = k'))
  unfold dictErase
  induction d with
  | nil => rfl
  | cons p ps ih =>
    rcases p with ⟨pk, pv⟩
    by_cases hp : (pk == k') = true
    · rw [List.filter_cons_of_neg (by simp [hp]), dictFind?_cons,
        if_neg (by simp [hb pk hp]), ih]
    · rw [List.filter_cons_of_pos (by simpa using hp), dictFind?_cons,
        dictFind?_cons]
      by_cases hq : (pk == k) = true
      · rw [if_pos hq, if_pos hq]
      · rw [if_neg hq, if_neg hq, ih]

theorem processPairEvent_eq (fetch : RequakeEvent → Option Trace)
    (cache : List (Str × Trace)) (skipped : List Str) (ev : RequakeEvent) :
    processPairEvent fetch cache skipped ev =
      if skipped.contains ev.evid then (cache, skipped, .error [])
      else
        match dictFind? (cacheKey ev.evid (ev.trace_id.getD [])) cache with
        | some tr => (cache, skipped, .ok tr)
        | none =>
          match fetch ev with
          | some tr =>
            (dictInsert (cacheKey ev.evid (ev.trace_id.getD [])) tr cache,
             skipped, .ok tr)
          | none => (cache, skipped ++ [ev.evid], .error noWaveformMsg) := rfl

theorem processPairEvent_preserves (fetch : RequakeEvent → Option Trace)
    (cache : List (Str × Trace)) (skipped : List Str) (ev : RequakeEvent)
    (k : Str) (w : Trace) (hw : dictFind? k cache = some w) :
    dictFind? k (processPairEvent fetch cache skipped ev).1 = some w := by
  rw [processPairEvent_eq]
  by_cases hs : skipped.contains ev.evid
  · rw [if_pos hs]
    exact hw
  · rw [if_neg hs]
    cases hfound : dictFind? (cacheKey ev.evid (ev.trace_id.getD [])) cache with
    | some tr => exact hw
    | none =>
      cases hf : fetch ev with
      | some tr =>
        have hne : k ≠ cacheKey ev.evid (ev.trace_id.getD []) := by
          intro hc
          rw [hc, hfound] at hw
          cases hw
        show dictFind? k
          (dictInsert (cacheKey ev.evid (ev.trace_id.getD [])) tr cache) =
          some w
        rw [dictFind?_insert_fresh_other _ _ _ _ hfound hne]
        exact hw
      | none => exact hw

theorem processPairEvent_ok_cached (fetch : RequakeEvent → Option Trace)
    (cache : List (Str × Trace)) (skipped : List Str) (ev : RequakeEvent)
    (tr : Trace)
    (h : (processPairEvent fetch cache skipped ev).2.2 = .ok tr) :
    dictFind? (cacheKey ev.evid (ev.trace_id.getD []))
      (processPairEvent fetch cache skipped ev).1 = some tr := by
  rw [processPairEvent_eq] at h ⊢
  by_cases hs : skipped.contains ev.evid
  · rw [if_pos hs] at h
    cases h
  · rw [if_neg hs] at h ⊢
    cases hfound : dictFind? (cacheKey ev.evid (ev.trace_id.getD [])) cache with
    | some tr' =>
      rw [hfound] at h
      show dictFind? (cacheKey ev.evid (ev.trace_id.getD [])) cache = some tr
      have h' : (Except.ok tr' : Except Str Trace) = Except.ok tr := h
      cases h'
      exact hfound
    | none =>
      rw [hfound] at h
      cases hf : fetch ev with
      | some tr' =>
        rw [hf] at h
        show dictFind? (cacheKey ev.evid (ev.trace_id.getD []))
          (dictInsert (cacheKey ev.evid (ev.trace_id.getD [])) tr' cache) =
          some tr
        have h' : (Except.ok tr' : Except Str Trace) = Except.ok tr := h
        cases h'
        exact dictFind?_insert_fresh_self _ _ _ hfound
      | none =>
        rw [hf] at h
        cases h

/-- C5 counterexample: at a concrete call on a fresh state where both
downloads succeed, the cache after `get_waveform_pair` holds an entry keyed
by event 2's evid and trace id (the loop caches both events); and at a call
where event 1 changed, the entry of the *previous* event 1 is still in the
cache afterwards (the purge deletes the new key, not the old one). -/
theorem C5_cache_counterexample :
    dictFind? (cacheKey ['b'] ['I'])
      (get_waveform_pair (fun _ _ => 0) [] [['I']]
        (fun _ => some ⟨['t'], 1⟩) ⟨[], [], none⟩
        { evid := ['a'] } { evid := ['b'] }).1.tr_cache = some ⟨['t'], 1⟩
    ∧ dictFind? (cacheKey ['z'] ['I'])
      (get_waveform_pair (fun _ _ => 0) [] [['I']]
        (fun _ => some ⟨['t'], 1⟩)
        ⟨[], [(cacheKey ['z'] ['I'], ⟨['t'], 1⟩)], some (cacheKey ['z'] ['I'])⟩
        { evid := ['a'] } { evid := ['b'] }).1.tr_cache = some ⟨['t'], 1⟩ :=
  ⟨rfl, rfl⟩

/-- C5 amended: after a call to `get_waveform_pair` the traces of *both*
events of a successful pair are cached under their evid and trace id; every
cache entry other than the one under event 1's new key survives the call
unchanged (in particular the previous event 1's entry is never removed);
and the purge performed when event 1 changes deletes the entry under the
*new* cache key, not the previous one. -/
theorem C5_cache_amended (dist : Coord → Coord → ℚ)
    (traceid_coords : List (Str × Coord)) (trace_ids : List Str)
    (fetch : RequakeEvent → Option Trace) (st : WaveformState)
    (ev1 ev2 : RequakeEvent) (tid : Str)
    (htid : _get_trace_id dist traceid_coords trace_ids ev1 = some tid) :
    (∀ out,
      (get_waveform_pair dist traceid_coords trace_ids fetch st ev1 ev2).2 =
        .ok out →
      dictFind? (cacheKey ev1.evid tid)
        (get_waveform_pair dist traceid_coords trace_ids fetch st
          ev1 ev2).1.tr_cache ≠ none
      ∧ dictFind? (cacheKey ev2.evid tid)
        (get_waveform_pair dist traceid_coords trace_ids fetch st
          ev1 ev2).1.tr_cache ≠ none)
    ∧ (∀ k w, k ≠ cacheKey ev1.evid tid →
        dictFind? k st.tr_cache = some w →
        dictFind? k (get_waveform_pair dist traceid_coords trace_ids fetch st
          ev1 ev2).1.tr_cache = some w)
    ∧ (st.skipped_evids.contains ev1.evid = true →
        (get_waveform_pair dist traceid_coords trace_ids fetch st
          ev1 ev2).1.tr_cache = purgeCache st (cacheKey ev1.evid tid)) := by
  have hgw : get_waveform_pair dist traceid_coords trace_ids fetch st ev1 ev2 =
      get_waveform_pair_core fetch st ev1 ev2 tid := by
    unfold get_waveform_pair
    rw [htid]
  rw [hgw]
  have hstep1 : ∀ k w, dictFind? k (purgeCache st (cacheKey ev1.evid tid)) =
      some w → dictFind? k (pairStep1 fetch st ev1 tid).1 = some w := by
    intro k w hw
    exact processPairEvent_preserves fetch _ _ _ k w hw
  have hstep2 : ∀ k w, dictFind? k (pairStep1 fetch st ev1 tid).1 = some w →
      dictFind? k (pairStep2 fetch st ev1 ev2 tid).1 = some w := by
    intro k w hw
    exact processPairEvent_preserves fetch _ _ _ k w hw
  have hpurge : ∀ k w, k ≠ cacheKey ev1.evid tid →
      dictFind? k st.tr_cache = some w →
      dictFind? k (purgeCache st (cacheKey ev1.evid tid)) = some w := by
    intro k w hk hw
    unfold purgeCache
    by_cases hp : st.old_cache_key ≠ none ∧
        st.old_cache_key ≠ some (cacheKey ev1.evid tid)
    · rw [if_pos hp, dictFind?_erase_other _ _ _ hk]
      exact hw
    · rw [if_neg hp]
      exact hw
  unfold get_waveform_pair_core
  cases hr1 : (pairStep1 fetch st ev1 tid).2.2 with
  | error m =>
    refine ⟨?_, ?_, ?_⟩
    · intro out hout
      cases hout
    · intro k w hk hw
      exact hstep1 k w (hpurge k w hk hw)
    · intro hs
      show (pairStep1 fetch st ev1 tid).1 = purgeCache st (cacheKey ev1.evid tid)
      unfold pairStep1
      rw [processPairEvent_eq, if_pos (by simpa using hs)]
  | ok tr1 =>
    cases hr2 : (pairStep2 fetch st ev1 ev2 tid).2.2 with
    | error m =>
      refine ⟨?_, ?_, ?_⟩
      · intro out hout
        cases hout
      · intro k w hk hw
        exact hstep2 k w (hstep1 k w (hpurge k w hk hw))
      · intro hs
        have h1err : (pairStep1 fetch st ev1 tid).2.2 = .error [] := by
          unfold pairStep1
          rw [processPairEvent_eq, if_pos (by simpa using hs)]
        rw [hr1] at h1err
        cases h1err
    | ok tr2 =>
      refine ⟨?_, ?_, ?_⟩
      · intro out hout
        have hcached1 : dictFind? (cacheKey ev1.evid tid)
            (pairStep1 fetch st ev1 tid).1 = some tr1 := by
          exact processPairEvent_ok_cached fetch _ _ _ tr1 hr1
        have hc2 : dictFind? (cacheKey ev1.evid tid)
            (pairStep2 fetch st ev1 ev2 tid).1 = some tr1 :=
          hstep2 _ tr1 hcached1
        have hcached2 : dictFind? (cacheKey ev2.evid tid)
            (pairStep2 fetch st ev1 ev2 tid).1 = some tr2 := by
          exact processPairEvent_ok_cached fetch _ _ _ tr2 hr2
        constructor
        · show dictFind? (cacheKey ev1.evid tid)
            (pairStep2 fetch st ev1 ev2 tid).1 ≠ none
          rw [hc2]
          exact Option.some_ne_none tr1
        · show dictFind? (cacheKey ev2.evid tid)
            (pairStep2 fetch st ev1 ev2 tid).1 ≠ none
          rw [hcached2]
          exact Option.some_ne_none tr2
      · intro k w hk hw
        exact hstep2 k w (hstep1 k w (hpurge k w hk hw))
      · intro hs
        have h1err : (pairStep1 fetch st ev1 tid).2.2 = .error [] := by
          unfold pairStep1
          rw [processPairEvent_eq, if_pos (by simpa using hs)]
        rw [hr1] at h1err
        cases h1err

/-- Witness for C5 at a concrete successful call: both cache entries are
present afterwards, and an unrelated pre-existing entry survives. -/
theorem C5_cache_amended_witness :
    (dictFind? (cacheKey ['a'] ['I'])
      (get_waveform_pair (fun _ _ => 0) [] [['I']]
        (fun _ => some ⟨['t'], 1⟩)
        ⟨[], [(cacheKey ['z'] ['I'], ⟨['u'], 1⟩)], some (cacheKey ['z'] ['I'])⟩
        { evid := ['a'] } { evid := ['b'] }).1.tr_cache ≠ none)
    ∧ dictFind? (cacheKey ['z'] ['I'])
      (get_waveform_pair (fun _ _ => 0) [] [['I']]
        (fun _ => some ⟨['t'], 1⟩)
        ⟨[], [(cacheKey ['z'] ['I'], ⟨['u'], 1⟩)], some (cacheKey ['z'] ['I'])⟩
        { evid := ['a'] } { evid := ['b'] }).1.tr_cache = some ⟨['u'], 1⟩ :=
  ⟨((C5_cache_amended (fun _ _ => 0) [] [['I']] (fun _ => some ⟨['t'], 1⟩)
      ⟨[], [(cacheKey ['z'] ['I'], ⟨['u'], 1⟩)], some (cacheKey ['z'] ['I'])⟩
      { evid := ['a'] } { evid := ['b'] } ['I'] rfl).1 _ rfl).1,
   (C5_cache_amended (fun _ _ => 0) [] [['I']] (fun _ => some ⟨['t'], 1⟩)
      ⟨[], [(cacheKey ['z'] ['I'], ⟨['u'], 1⟩)], some (cacheKey ['z'] ['I'])⟩
      { evid := ['a'] } { evid := ['b'] } ['I'] rfl).2.1
     (cacheKey ['z'] ['I']) ⟨['u'], 1⟩ (by decide) rfl⟩

theorem argminFirst_ne_none {α : Type} (f : α → ℚ) (x : α) (xs : List α) :
    argminFirst f (x :: xs) ≠ none := by
  unfold argminFirst
  cases har : argminFirst f xs with
  | none => simp
  | some b =>
    by_cases hxb : f x ≤ f b
    · simp [hxb]
    · simp [hxb]

theorem argminFirst_spec {α : Type} (f : α → ℚ) :
    ∀ (l : List α) (a : α), argminFirst f l = some a →
      a ∈ l ∧ ∀ b ∈ l, f a ≤ f b := by
  intro l
  induction l with
  | nil =>
    intro a h
    cases h
  | cons x xs ih =>
    intro a h
    unfold argminFirst at h
    cases har : argminFirst f xs with
    | none =>
      rw [har] at h
      have h' : some x = some a := h
      cases h'
      refine ⟨by simp, ?_⟩
      intro b hb
      rcases List.mem_cons.mp hb with hb | hb
      · rw [hb]
      · cases xs with
        | nil => simp at hb
        | cons y ys => exact absurd har (argminFirst_ne_none f y ys)
    | some b =>
      rw [har] at h
      have h' : (if f x ≤ f b then some x else some b) = some a := h
      rcases ih b har with ⟨hbmem, hble⟩
      by_cases hxb : f x ≤ f b
      · rw [if_pos hxb] at h'
        cases h'
        refine ⟨by simp, ?_⟩
        intro c hc
        rcases List.mem_cons.mp hc with hc | hc
        · rw [hc]
        · exact le_trans hxb (hble c hc)
      · rw [if_neg hxb] at h'
        cases h'
        refine ⟨by simp [hbmem], ?_⟩
        intro c hc
        rcases List.mem_cons.mp hc with hc | hc
        · rw [hc]
          exact le_of_not_le hxb
        · exact hble c hc

theorem pairStep1_skip (fetch : RequakeEvent → Option Trace)
    (st : WaveformState) (ev1 : RequakeEvent) (tid : Str)
    (h : st.skipped_evids.contains ev1.evid = true) :
    pairStep1 fetch st ev1 tid =
      (purgeCache st (cacheKey ev1.evid tid), st.skipped_evids, .error []) := by
  unfold pairStep1
  rw [processPairEvent_eq, if_pos (by simpa using h)]

theorem pairStep1_fail (fetch : RequakeEvent → Option Trace)
    (st : WaveformState) (ev1 : RequakeEvent) (tid : Str)
    (hskip : st.skipped_evids.contains ev1.evid = false)
    (hmiss : dictFind? (cacheKey ev1.evid tid)
      (purgeCache st (cacheKey ev1.evid tid)) = none)
    (hf : fetch { ev1 with trace_id := some tid } = none) :
    pairStep1 fetch st ev1 tid =
      (purgeCache st (cacheKey ev1.evid tid),
       st.skipped_evids ++ [ev1.evid], .error noWaveformMsg) := by
  unfold pairStep1
  have hskip' : st.skipped_evids.contains
      ({ ev1 with trace_id := some tid } : RequakeEvent).evid = false := hskip
  rw [processPairEvent_eq, if_neg (by rw [hskip']; simp)]
  have hmiss' : dictFind?
      (cacheKey ({ ev1 with trace_id := some tid } : RequakeEvent).evid
        (({ ev1 with trace_id := some tid } : RequakeEvent).trace_id.getD []))
      (purgeCache st (cacheKey ev1.evid tid)) = none := hmiss
  rw [hmiss', hf]

/-- C1 counterexample: with two candidate trace ids (stations A at the
epicenter of event 1 and B halfway between the two events),
`get_waveform_pair` assigns the pair station A — the station closest to
*event 1* — while the station closest to the midpoint of the two epicenters
is B.  The geodesic distance is instantiated with the discrete metric,
which agrees with any geodesic on the comparisons involved (distance zero
for coincident points, positive otherwise). -/
theorem C1_station_selection_counterexample :
    (get_waveform_pair (fun p q => if p = q then (0 : ℚ) else 1)
        [(['A'], (0, 0)), (['B'], (0, 10))] [['A'], ['B']]
        (fun _ => some ⟨[], 1⟩) ⟨[], [], none⟩
        { evid := ['1'], lat := some 0, lon := some 0 }
        { evid := ['2'], lat := some 0, lon := some 20 }).2 =
      .ok ({ evid := ['1'], lat := some 0, lon := some 0,
             trace_id := some ['A'] },
           { evid := ['2'], lat := some 0, lon := some 20,
             trace_id := some ['A'] }, [⟨[], 1⟩, ⟨[], 1⟩])
    ∧ specStationSelection (fun p q => if p = q then (0 : ℚ) else 1)
        [(['A'], (0, 0)), (['B'], (0, 10))] [['A'], ['B']]
        { evid := ['1'], lat := some 0, lon := some 0 }
        { evid := ['2'], lat := some 0, lon := some 20 } = some ['B']
    ∧ some ['A'] ≠ some ['B'] := by
  refine ⟨rfl, ?_, by decide⟩
  have hmid : midpointCoord
      (evCoord { evid := ['1'], lat := some 0, lon := some 0 })
      (evCoord { evid := ['2'], lat := some 0, lon := some 20 }) =
      ((0 : ℚ), (10 : ℚ)) := by
    unfold midpointCoord evCoord
    norm_num
  unfold specStationSelection
  rw [if_neg (by decide)]
  simp only [hmid]
  rfl

/-- C1 amended: with at least two candidate trace ids, `_get_trace_id`
returns a metadata trace id whose station minimizes the distance to *event
1*'s epicenter (not to the midpoint of the pair), and `get_waveform_pair`
assigns it to both events; on waveform failure for event 1 there is no
fallback to another trace id — the event is immediately recorded as
skipped and the call errors; a later pair whose event 1 is already skipped
short-circuits with a bare (empty-message) error. -/
theorem C1_station_selection_amended :
    (∀ (dist : Coord → Coord → ℚ) (coords : List (Str × Coord))
        (ids : List Str) (ev : RequakeEvent) (t : Str),
        2 ≤ ids.length → _get_trace_id dist coords ids ev = some t →
        ∃ c, (t, c) ∈ coords ∧
          ∀ p ∈ coords, dist c (evCoord ev) ≤ dist p.2 (evCoord ev))
    ∧ (∀ (dist : Coord → Coord → ℚ) (coords : List (Str × Coord))
        (ids : List Str) (fetch : RequakeEvent → Option Trace)
        (st : WaveformState) (ev1 ev2 : RequakeEvent) (tid : Str)
        (out : RequakeEvent × RequakeEvent × List Trace),
        _get_trace_id dist coords ids ev1 = some tid →
        (get_waveform_pair dist coords ids fetch st ev1 ev2).2 = .ok out →
        out.1.trace_id = some tid ∧ out.2.1.trace_id = some tid)
    ∧ (∀ (dist : Coord → Coord → ℚ) (coords : List (Str × Coord))
        (ids : List Str) (fetch : RequakeEvent → Option Trace)
        (st : WaveformState) (ev1 ev2 : RequakeEvent) (tid : Str),
        _get_trace_id dist coords ids ev1 = some tid →
        st.skipped_evids.contains ev1.evid = false →
        dictFind? (cacheKey ev1.evid tid)
          (purgeCache st (cacheKey ev1.evid tid)) = none →
        fetch { ev1 with trace_id := some tid } = none →
        (get_waveform_pair dist coords ids fetch st ev1 ev2).2 =
          .error noWaveformMsg
        ∧ (get_waveform_pair dist coords ids fetch st
            ev1 ev2).1.skipped_evids = st.skipped_evids ++ [ev1.evid])
    ∧ (∀ (dist : Coord → Coord → ℚ) (coords : List (Str × Coord))
        (ids : List Str) (fetch : RequakeEvent → Option Trace)
        (st : WaveformState) (ev1 ev2 : RequakeEvent) (tid : Str),
        _get_trace_id dist coords ids ev1 = some tid →
        st.skipped_evids.contains ev1.evid = true →
        (get_waveform_pair dist coords ids fetch st ev1 ev2).2 =
          .error []) := by
  refine ⟨?_, ?_, ?_, ?_⟩
  · intro dist coords ids ev t h2 hsel
    unfold _get_trace_id at hsel
    rw [if_neg (by omega)] at hsel
    cases hmin : argminFirst (fun p => dist p.2 (evCoord ev)) coords with
    | none =>
      rw [hmin] at hsel
      cases hsel
    | some pair =>
      rw [hmin] at hsel
      have hpt : pair.1 = t := by
        simpa using hsel
      rcases argminFirst_spec _ coords pair hmin with ⟨hmem, hle⟩
      refine ⟨pair.2, ?_, ?_⟩
      · rw [← hpt]
        exact hmem
      · intro p hp
        exact hle p hp
  · intro dist coords ids fetch st ev1 ev2 tid out htid hok
    have hgw : get_waveform_pair dist coords ids fetch st ev1 ev2 =
        get_waveform_pair_core fetch st ev1 ev2 tid := by
      unfold get_waveform_pair
      rw [htid]
    rw [hgw] at hok
    unfold get_waveform_pair_core at hok
    cases hr1 : (pairStep1 fetch st ev1 tid).2.2 with
    | error m =>
      rw [hr1] at hok
      cases hok
    | ok tr1 =>
      rw [hr1] at hok
      cases hr2 : (pairStep2 fetch st ev1 ev2 tid).2.2 with
      | error m =>
        rw [hr2] at hok
        cases hok
      | ok tr2 =>
        rw [hr2] at hok
        have hout : out = ({ ev1 with trace_id := some tid },
            { ev2 with trace_id := some tid }, [tr1, tr2]) := by
          have h' : (Except.ok ({ ev1 with trace_id := some tid },
              { ev2 with trace_id := some tid }, [tr1, tr2]) :
              Except Str (RequakeEvent × RequakeEvent × List Trace)) =
              .ok out := hok
          cases h'
          rfl
        rw [hout]
        exact ⟨rfl, rfl⟩
  · intro dist coords ids fetch st ev1 ev2 tid htid hskip hmiss hf
    have hgw : get_waveform_pair dist coords ids fetch st ev1 ev2 =
        get_waveform_pair_core fetch st ev1 ev2 tid := by
      unfold get_waveform_pair
      rw [htid]
    rw [hgw]
    unfold get_waveform_pair_core
    rw [pairStep1_fail fetch st ev1 tid hskip hmiss hf]
    exact ⟨rfl, rfl⟩
  · intro dist coords ids fetch st ev1 ev2 tid htid hskip
    have hgw : get_waveform_pair dist coords ids fetch st ev1 ev2 =
        get_waveform_pair_core fetch st ev1 ev2 tid := by
      unfold get_waveform_pair
      rw [htid]
    rw [hgw]
    unfold get_waveform_pair_core
    rw [pairStep1_skip fetch st ev1 tid hskip]

/-- Witness for C1 at the counterexample's configuration: the selected
station A is distance-minimal to event 1, and a failing download for event
1 marks it skipped with no second candidate tried. -/
theorem C1_station_selection_amended_witness :
    (∃ c, ((['A'], c) ∈ [((['A'] : Str), ((0 : ℚ), (0 : ℚ))),
        (['B'], (0, 10))]) ∧
      ∀ p ∈ [((['A'] : Str), ((0 : ℚ), (0 : ℚ))), (['B'], (0, 10))],
        (fun p q => if p = q then (0 : ℚ) else 1) c
          (evCoord { evid := ['1'], lat := some 0, lon := some 0 }) ≤
        (fun p q => if p = q then (0 : ℚ) else 1) p.2
          (evCoord { evid := ['1'], lat := some 0, lon := some 0 }))
    ∧ (get_waveform_pair (fun p q => if p = q then (0 : ℚ) else 1)
        [(['A'], (0, 0)), (['B'], (0, 10))] [['A'], ['B']]
        (fun _ => none) ⟨[], [], none⟩
        { evid := ['1'], lat := some 0, lon := some 0 }
        { evid := ['2'], lat := some 0, lon := some 20 }).1.skipped_evids =
      [['1']] :=
  ⟨C1_station_selection_amended.1 (fun p q => if p = q then (0 : ℚ) else 1)
    [(['A'], (0, 0)), (['B'], (0, 10))] [['A'], ['B']]
    { evid := ['1'], lat := some 0, lon := some 0 } ['A'] (by decide) rfl,
   (C1_station_selection_amended.2.2.1 (fun p q => if p = q then (0 : ℚ) else 1)
    [(['A'], (0, 0)), (['B'], (0, 10))] [['A'], ['B']] (fun _ => none)
    ⟨[], [], none⟩ { evid := ['1'], lat := some 0, lon := some 0 }
    { evid := ['2'], lat := some 0, lon := some 20 } ['A'] rfl rfl rfl rfl).2⟩

theorem eventPyEq_refl (a : RequakeEvent) : eventPyEq a a = true := by
  simp [eventPyEq]

theorem pySetOfList_foldl_nodup :
    ∀ (l acc : List RequakeEvent), acc.Nodup →
    (l.foldl (fun acc e =>
      if acc.any (eventPyEq e) then acc else acc ++ [e]) acc).Nodup := by
  intro l
  induction l with
  | nil =>
    intro acc h
    exact h
  | cons e es ih =>
    intro acc h
    rw [List.foldl_cons]
    apply ih
    by_cases hany : acc.any (eventPyEq e)
    · rw [if_pos hany]
      exact h
    · rw [if_neg hany]
      rw [List.nodup_append]
      refine ⟨h, List.nodup_singleton e, ?_⟩
      intro a ha hb
      have hb' : a = e := by simpa using hb
      have hany' : acc.any (eventPyEq e) = false := by simpa using hany
      rw [List.any_eq_false] at hany'
      exact hany' a ha (by rw [hb', eventPyEq_refl])

theorem pySetOfList_nodup (l : List RequakeEvent) : (pySetOfList l).Nodup :=
  pySetOfList_foldl_nodup l [] List.nodup_nil

theorem catalogRead_ok_shape (π : List RequakeEvent → List RequakeEvent)
    (file : List Str) (cat : List RequakeEvent)
    (h : catalogRead π file = .ok cat) :
    ∃ evs, cat = π (pySetOfList evs) := by
  unfold catalogRead at h
  cases hf : exFoldl readStep [] file with
  | error m =>
    rw [hf] at h
    cases h
  | ok evs =>
    rw [hf] at h
    have h' : (Except.ok (π (pySetOfList evs)) :
        Except Str (List RequakeEvent)) = .ok cat := h
    cases h'
    exact ⟨evs, rfl⟩

theorem catalogRead_ok_nodup (π : List RequakeEvent → List RequakeEvent)
    (hπ : OrderChoice π) (file : List Str) (cat : List RequakeEvent)
    (h : catalogRead π file = .ok cat) : cat.Nodup := by
  rcases catalogRead_ok_shape π file cat h with ⟨evs, hcat⟩
  rw [hcat]
  exact (hπ (pySetOfList evs)).symm.nodup (pySetOfList_nodup evs)

theorem combinations2_length {α : Type} :
    ∀ l : List α, 2 * (combinations2 l).length = l.length * (l.length - 1) := by
  intro l
  induction l with
  | nil => rfl
  | cons x xs ih =>
    show 2 * ((xs.map (fun y => (x, y))) ++ combinations2 xs).length = _
    rw [List.length_append, List.length_map, List.length_cons]
    have h2 : (xs.length + 1) * (xs.length + 1 - 1) =
        xs.length * (xs.length - 1) + 2 * xs.length := by
      cases hm : xs.length with
      | zero => rfl
      | succ m =>
        show (m + 1 + 1) * (m + 1 + 1 - 1) = (m + 1) * (m + 1 - 1) + 2 * (m + 1)
        have ha : m + 1 + 1 - 1 = m + 1 := rfl
        have hb : m + 1 - 1 = m := rfl
        rw [ha, hb]
        ring
    rw [h2, ← ih]
    ring

theorem combinations2_subset {α : Type} :
    ∀ (l : List α) (p : α × α), p ∈ combinations2 l → p.1 ∈ l ∧ p.2 ∈ l := by
  intro l
  induction l with
  | nil =>
    intro p hp
    cases hp
  | cons x xs ih =>
    intro p hp
    rcases p with ⟨p1, p2⟩
    rcases List.mem_append.mp hp with hp | hp
    · rcases List.mem_map.mp hp with ⟨y, hy, hxy⟩
      injection hxy with h1 h2
      subst h1
      subst h2
      exact ⟨by simp, by simp [hy]⟩
    · rcases ih (p1, p2) hp with ⟨h1, h2⟩
      exact ⟨by simp [h1], by simp [h2]⟩

theorem combinations2_order {α : Type} [DecidableEq α] :
    ∀ (l : List α), l.Nodup → ∀ p ∈ combinations2 l,
      p.1 ∈ l ∧ p.2 ∈ l ∧ p.1 ≠ p.2 ∧ l.indexOf p.1 < l.indexOf p.2 := by
  intro l
  induction l with
  | nil =>
    intro _ p hp
    cases hp
  | cons x xs ih =>
    intro hnd p hp
    have hx : x ∉ xs := (List.nodup_cons.mp hnd).1
    have hxs : xs.Nodup := (List.nodup_cons.mp hnd).2
    rcases List.mem_append.mp hp with hp | hp
    · rcases List.mem_map.mp hp with ⟨y, hy, hxy⟩
      rw [← hxy]
      have hne : x ≠ y := fun hc => hx (hc ▸ hy)
      refine ⟨?_, ?_, ?_, ?_⟩
      · show x ∈ x :: xs
        simp
      · show y ∈ x :: xs
        simp [hy]
      · show x ≠ y
        exact hne
      · show (x :: xs).indexOf x < (x :: xs).indexOf y
        rw [List.indexOf_cons_self, List.indexOf_cons_ne xs hne]
        exact Nat.succ_pos _
    · rcases ih hxs p hp with ⟨h1, h2, h3, h4⟩
      have hp1 : p.1 ≠ x := fun hc => hx (hc ▸ h1)
      have hp2 : p.2 ≠ x := fun hc => hx (hc ▸ h2)
      refine ⟨by simp [h1], by simp [h2], h3, ?_⟩
      show (x :: xs).indexOf p.1 < (x :: xs).indexOf p.2
      rw [List.indexOf_cons_ne xs (Ne.symm hp1), List.indexOf_cons_ne xs (Ne.symm hp2)]
      exact Nat.succ_lt_succ h4

theorem combinations2_count {α : Type} [DecidableEq α] :
    ∀ (l : List α), l.Nodup → ∀ a b : α, a ∈ l → b ∈ l → a ≠ b →
      (combinations2 l).count (a, b) + (combinations2 l).count (b, a) = 1 := by
  intro l
  induction l with
  | nil =>
    intro _ a b ha _ _
    cases ha
  | cons x xs ih =>
    intro hnd a b ha hb hab
    have hx : x ∉ xs := (List.nodup_cons.mp hnd).1
    have hxs : xs.Nodup := (List.nodup_cons.mp hnd).2
    have hinj : Function.Injective (fun y : α => (x, y)) := by
      intro u v huv
      exact congrArg Prod.snd huv
    have cmap : ∀ (c : α) (ys : List α),
        List.count (x, c) (ys.map (fun y => (x, y))) = List.count c ys := by
      intro c ys
      induction ys with
      | nil => rfl
      | cons z zs ihz =>
        rw [List.map_cons]
        by_cases hzc : z = c
        · subst hzc
          simp [List.count_cons, ihz]
        · have hne1 : ((x, z) : α × α) ≠ (x, c) := by
            intro hc
            exact hzc (congrArg Prod.snd hc)
          simp [List.count_cons, ihz, hzc, hne1]
    show (List.count (a, b) ((xs.map (fun y => (x, y))) ++ combinations2 xs)) +
      (List.count (b, a) ((xs.map (fun y => (x, y))) ++ combinations2 xs)) = 1
    rw [List.count_append, List.count_append]
    rcases List.mem_cons.mp ha with hax | hax
    · have hbx : b ∈ xs := by
        rcases List.mem_cons.mp hb with hbb | hbb
        · exact absurd (hax.trans hbb.symm) hab
        · exact hbb
      have c1 : List.count (a, b) (xs.map (fun y => (x, y))) = 1 := by
        rw [hax, cmap b xs]
        exact List.count_eq_one_of_mem hxs hbx
      have c2 : List.count (b, a) (xs.map (fun y => (x, y))) = 0 := by
        rw [List.count_eq_zero]
        intro hc
        rcases List.mem_map.mp hc with ⟨y, _, hy⟩
        have hxb : x = b := congrArg Prod.fst hy
        exact hx (hxb ▸ hbx)
      have c3 : List.count (a, b) (combinations2 xs) = 0 := by
        rw [List.count_eq_zero]
        intro hc
        have hm := (combinations2_subset xs (a, b) hc).1
        exact hx (hax ▸ hm)
      have c4 : List.count (b, a) (combinations2 xs) = 0 := by
        rw [List.count_eq_zero]
        intro hc
        have hm := (combinations2_subset xs (b, a) hc).2
        exact hx (hax ▸ hm)
      rw [c1, c2, c3, c4]
    · rcases List.mem_cons.mp hb with hbx | hbx
      · have c1 : List.count (a, b) (xs.map (fun y => (x, y))) = 0 := by
          rw [List.count_eq_zero]
          intro hc
          rcases List.mem_map.mp hc with ⟨y, _, hy⟩
          have hxa : x = a := congrArg Prod.fst hy
          exact hx (hxa ▸ hax)
        have c2 : List.count (b, a) (xs.map (fun y => (x, y))) = 1 := by
          rw [hbx, cmap a xs]
          exact List.count_eq_one_of_mem hxs hax
        have c3 : List.count (a, b) (combinations2 xs) = 0 := by
          rw [List.count_eq_zero]
          intro hc
          have hm := (combinations2_subset xs (a, b) hc).2
          exact hx (hbx ▸ hm)
        have c4 : List.count (b, a) (combinations2 xs) = 0 := by
          rw [List.count_eq_zero]
          intro hc
          have hm := (combinations2_subset xs (b, a) hc).1
          exact hx (hbx ▸ hm)
        rw [c1, c2, c3, c4]
      · have c1 : List.count (a, b) (xs.map (fun y => (x, y))) = 0 := by
          rw [List.count_eq_zero]
          intro hc
          rcases List.mem_map.mp hc with ⟨y, _, hy⟩
          have hxa : x = a := congrArg Prod.fst hy
          exact hx (hxa ▸ hax)
        have c2 : List.count (b, a) (xs.map (fun y => (x, y))) = 0 := by
          rw [List.count_eq_zero]
          intro hc
          rcases List.mem_map.mp hc with ⟨y, _, hy⟩
          have hxb : x = b := congrArg Prod.fst hy
          exact hx (hxb ▸ hbx)
        rw [c1, c2]
        simpa using ih hxs a b hax hbx hab

/-- C3 counterexample: `RequakeCatalog.read` ends with `list(set(...))`,
whose iteration order is unspecified — reversal is an admissible order
choice.  On a two-event, time-sorted catalog file read under that order,
the scanner's iteration sequence (`combinations(catalog, 2)`) differs from
canonical combination order over the *time-sorted* unique events: the
claimed ordering is not guaranteed by the code, which never re-sorts after
the set-based deduplication. -/
theorem C3_scan_order_counterexample :
    OrderChoice (fun l => l.reverse)
    ∧ catalogRead (fun l => l.reverse) [evLine1, evLine2] = .ok [evB, evA]
    ∧ combinations2 [evB, evA] ≠
        combinations2 (sortByTime (pySetOfList [evA, evB])) := by
  refine ⟨fun l => l.reverse_perm, rfl, ?_⟩
  decide

/-- C3 amended: for a catalog read back from the stored file (under any
admissible set-iteration order), the scanner visits exactly
`N * (N - 1) / 2` pairs — each a pair of distinct catalog events in
canonical combination order (the first component strictly earlier in the
catalog sequence than the second), and each unordered pair of distinct
events visited exactly once.  The catalog sequence is a permutation of the
unique events, but not necessarily time-sorted. -/
theorem C3_scan_enumeration_amended
    (π : List RequakeEvent → List RequakeEvent) (hπ : OrderChoice π)
    (file : List Str) (cat : List RequakeEvent)
    (hread : catalogRead π file = .ok cat) :
    2 * (combinations2 cat).length = cat.length * (cat.length - 1)
    ∧ (∀ p ∈ combinations2 cat,
        p.1 ∈ cat ∧ p.2 ∈ cat ∧ p.1 ≠ p.2 ∧
        cat.indexOf p.1 < cat.indexOf p.2)
    ∧ (∀ a ∈ cat, ∀ b ∈ cat, a ≠ b →
        (combinations2 cat).count (a, b) +
          (combinations2 cat).count (b, a) = 1) := by
  have hnd := catalogRead_ok_nodup π hπ file cat hread
  exact ⟨combinations2_length cat, combinations2_order cat hnd,
    fun a ha b hb hab => combinations2_count cat hnd a b ha hb hab⟩

/-- Witness for C3 at the concrete two-line catalog file, read in file
order. -/
theorem C3_scan_enumeration_amended_witness :
    2 * (combinations2 [evA, evB]).length =
      ([evA, evB] : List RequakeEvent).length *
        (([evA, evB] : List RequakeEvent).length - 1)
    ∧ (combinations2 [evA, evB]).count (evA, evB) +
        (combinations2 [evA, evB]).count (evB, evA) = 1 :=
  ⟨(C3_scan_enumeration_amended (fun l => l) (fun l => List.Perm.refl l)
      [evLine1, evLine2] [evA, evB] rfl).1,
   (C3_scan_enumeration_amended (fun l => l) (fun l => List.Perm.refl l)
      [evLine1, evLine2] [evA, evB] rfl).2.2 evA (by simp) evB (by simp)
      (by decide)⟩

theorem eventPyEq_symm {a b : RequakeEvent} (h : eventPyEq a b = true) :
    eventPyEq b a = true := by
  unfold eventPyEq at *
  simp only [Bool.and_eq_true, beq_iff_eq] at *
  exact ⟨h.1.symm, h.2.symm⟩

theorem eventPyEq_trans {a b c : RequakeEvent} (h1 : eventPyEq a b = true)
    (h2 : eventPyEq b c = true) : eventPyEq a c = true := by
  unfold eventPyEq at *
  simp only [Bool.and_eq_true, beq_iff_eq] at *
  exact ⟨h1.1.trans h2.1, h1.2.trans h2.2⟩

theorem eventPyEq_false_symm {a b : RequakeEvent} (h : eventPyEq a b = false) :
    eventPyEq b a = false := by
  cases hc : eventPyEq b a with
  | false => rfl
  | true =>
    rw [eventPyEq_symm hc] at h
    cases h

theorem length_insertByTime (e : RequakeEvent) :
    ∀ l, (insertByTime e l).length = l.length + 1 := by
  intro l
  induction l with
  | nil => rfl
  | cons x xs ih =>
    rw [insertByTime_cons]
    by_cases h : x.orig_time.key ≤ e.orig_time.key
    · rw [if_pos h]
      simp [ih]
    · rw [if_neg h]
      simp

/-- Pyeq-distinctness of a member list, maintained by `Family.append`. -/
theorem pairwise_insertByTime (e : RequakeEvent)
    (R : RequakeEvent → RequakeEvent → Prop) :
    ∀ l, l.Pairwise R → (∀ m ∈ l, R m e ∧ R e m) →
    (insertByTime e l).Pairwise R := by
  intro l
  induction l with
  | nil =>
    intro _ _
    simp [insertByTime]
  | cons x xs ih =>
    intro hpw hall
    rw [insertByTime_cons]
    rcases List.pairwise_cons.mp hpw with ⟨hx, hxs⟩
    by_cases h : x.orig_time.key ≤ e.orig_time.key
    · rw [if_pos h]
      rw [List.pairwise_cons]
      refine ⟨?_, ih hxs (fun m hm => hall m (by simp [hm]))⟩
      intro b hb
      rcases (mem_insertByTime e b xs).mp hb with hb | hb
      · rw [hb]
        exact (hall x (by simp)).1
      · exact hx b hb
    · rw [if_neg h]
      rw [List.pairwise_cons]
      refine ⟨?_, hpw⟩
      intro b hb
      rcases List.mem_cons.mp hb with hb | hb
      · rw [hb]
        exact (hall x (by simp)).2
      · exact (hall b (by simp [hb])).2

/-- Results of a successful `Family.append`: old members survive, the new
event is `__eq__`-present, the member count does not decrease, and
`__eq__`-pairwise-distinctness is preserved. -/
theorem append_ok_props (fam : Family) (ev : RequakeEvent) (fam' : Family)
    (h : fam.append ev = .ok fam') :
    (∀ m ∈ fam.members, m ∈ fam'.members) ∧ pyMem ev fam'.members ∧
      fam.members.length ≤ fam'.members.length ∧
      (fam.members.Pairwise (fun a b => eventPyEq a b = false) →
        fam'.members.Pairwise (fun a b => eventPyEq a b = false)) := by
  unfold Family.append at h
  by_cases hin : fam.members.any (eventPyEq ev)
  · rw [if_pos hin] at h
    have h' : (Except.ok fam : Except Str Family) = .ok fam' := h
    cases h'
    refine ⟨fun m hm => hm, ?_, le_refl _, fun hp => hp⟩
    rw [List.any_eq_true] at hin
    rcases hin with ⟨m, hm, hpe⟩
    exact ⟨m, hm, hpe⟩
  · have hfree : ∀ m ∈ fam.members, eventPyEq ev m = false := by
      have hany : fam.members.any (eventPyEq ev) = false := by
        simpa using hin
      rw [List.any_eq_false] at hany
      intro m hm
      have := hany m hm
      cases hc : eventPyEq ev m with
      | false => rfl
      | true => exact absurd hc this
    have hgoal : ∀ (t : Option Str),
        fam' = ({ members := insertByTime ev fam.members,
                  trace_id := t } : Family) →
        (∀ m ∈ fam.members, m ∈ fam'.members) ∧ pyMem ev fam'.members ∧
        fam.members.length ≤ fam'.members.length ∧
        (fam.members.Pairwise (fun a b => eventPyEq a b = false) →
          fam'.members.Pairwise (fun a b => eventPyEq a b = false)) := by
      intro t hf
      rw [hf]
      refine ⟨fun m hm => (mem_insertByTime ev m fam.members).mpr (Or.inr hm),
        ⟨ev, (mem_insertByTime ev ev fam.members).mpr (Or.inl rfl),
          eventPyEq_refl ev⟩, ?_, ?_⟩
      · show fam.members.length ≤ (insertByTime ev fam.members).length
        rw [length_insertByTime]
        omega
      · intro hp
        exact pairwise_insertByTime ev _ fam.members hp
          (fun m hm => ⟨eventPyEq_false_symm (hfree m hm), hfree m hm⟩)
    rw [if_neg hin] at h
    by_cases htid : fam.trace_id = none
    · rw [if_pos htid] at h
      have h' : (Except.ok { members := insertByTime ev fam.members,
                             trace_id := ev.trace_id } :
          Except Str Family) = .ok fam' := h
      cases h'
      exact hgoal ev.trace_id rfl
    · rw [if_neg htid] at h
      by_cases hne : ev.trace_id ≠ fam.trace_id
      · rw [if_pos hne] at h
        cases h
      · rw [if_neg hne] at h
        have h' : (Except.ok { members := insertByTime ev fam.members,
                               trace_id := fam.trace_id } :
            Except Str Family) = .ok fam' := h
        cases h'
        exact hgoal fam.trace_id rfl

theorem exFoldl_cons_error {ε α β : Type} (f : β → α → Except ε β)
    (b : β) (a : α) (as : List α) (e : ε) (h : f b a = .error e) :
    exFoldl f b (a :: as) = .error e := by
  unfold exFoldl
  rw [h]

theorem exFoldl_cons_ok {ε α β : Type} (f : β → α → Except ε β)
    (b : β) (a : α) (as : List α) (b' : β) (h : f b a = .ok b') :
    exFoldl f b (a :: as) = exFoldl f b' as := by
  show (match f b a with
    | .error e => .error e
    | .ok b' => exFoldl f b' as) = exFoldl f b' as
  rw [h]

theorem extend_nil (fam : Family) : Family.extend fam [] = .ok fam := rfl

/-- Results of a successful `Family.extend`. -/
theorem extend_ok_props :
    ∀ (evs : List RequakeEvent) (fam fam' : Family),
    Family.extend fam evs = .ok fam' →
    (∀ m ∈ fam.members, m ∈ fam'.members) ∧
    (∀ e ∈ evs, pyMem e fam'.members) ∧
    fam.members.length ≤ fam'.members.length ∧
    (fam.members.Pairwise (fun a b => eventPyEq a b = false) →
      fam'.members.Pairwise (fun a b => eventPyEq a b = false)) := by
  intro evs
  induction evs with
  | nil =>
    intro fam fam' h
    rw [extend_nil] at h
    have h' : fam = fam' := by
      cases h
      rfl
    rw [← h']
    exact ⟨fun m hm => hm, by simp, le_refl _, fun hp => hp⟩
  | cons e es ih =>
    intro fam fam' h
    unfold Family.extend at h
    cases ha : fam.append e with
    | error m =>
      rw [exFoldl_cons_error Family.append fam e es m ha] at h
      cases h
    | ok fam1 =>
      rw [exFoldl_cons_ok Family.append fam e es fam1 ha] at h
      have h2 : Family.extend fam1 es = .ok fam' := h
      rcases append_ok_props fam e fam1 ha with ⟨hsub, hpm, hlen, hpw⟩
      rcases ih fam1 fam' h2 with ⟨hsub2, hpm2, hlen2, hpw2⟩
      refine ⟨fun m hm => hsub2 m (hsub m hm), ?_, le_trans hlen hlen2,
        fun hp => hpw2 (hpw hp)⟩
      intro x hx
      rcases List.mem_cons.mp hx with hx | hx
      · rcases hpm with ⟨m, hm, hpe⟩
        exact hx ▸ ⟨m, hsub2 m hm, hpe⟩
      · exact hpm2 x hx

/-- Witness for C10 at a concrete two-event catalog: the located event is
untouched, the event missing its longitude is overwritten with the mean
station coordinates and depth 10. -/
theorem C10_fix_non_locatable_frame_witness :
    (fix_non_locatable_events [(4, 6)]
      [{ evid := ['a'], lat := some 1, lon := some 2, depth := some 3 },
       { evid := ['b'], lat := some 7 }])[0]? =
      some { evid := ['a'], lat := some 1, lon := some 2, depth := some 3 }
    ∧ (fix_non_locatable_events [(4, 6)]
      [{ evid := ['a'], lat := some 1, lon := some 2, depth := some 3 },
       { evid := ['b'], lat := some 7 }])[1]? =
      some { evid := ['b'], lat := some (qMean [(4 : ℚ)]),
             lon := some (qMean [(6 : ℚ)]), depth := some 10 } := by
  constructor
  · exact (C10_fix_non_locatable_frame [(4, 6)] _).2.1 0
      { evid := ['a'], lat := some 1, lon := some 2, depth := some 3 } rfl
      (by simp) (by simp)
  · exact (C10_fix_non_locatable_frame [(4, 6)] _).2.2 1
      { evid := ['b'], lat := some 7 } rfl (Or.inr rfl)

theorem append_empty (ev : RequakeEvent) :
    Family.append ⟨[], none⟩ ev = .ok ⟨[ev], ev.trace_id⟩ := rfl

/-- Results of a successful correlations fold: the seed members survive,
every above-threshold partner found in the event dictionary is
`__eq__`-present in the result, the member count does not decrease, and
`__eq__`-pairwise-distinctness is preserved. -/
theorem corrFold_props (events : List (Str × RequakeEvent)) (cc_min : ℚ) :
    ∀ (corrs : List (Str × ℚ)) (f0 fam' : Family),
    exFoldl (corrStep events cc_min) f0 corrs = .ok fam' →
    (∀ m ∈ f0.members, m ∈ fam'.members) ∧
    (∀ p ∈ corrs, ¬ p.2 < cc_min → ∀ f, eventsLookup events p.1 = some f →
      pyMem f fam'.members) ∧
    f0.members.length ≤ fam'.members.length ∧
    (f0.members.Pairwise (fun a b => eventPyEq a b = false) →
      fam'.members.Pairwise (fun a b => eventPyEq a b = false)) := by
  intro corrs
  induction corrs with
  | nil =>
    intro f0 fam' h
    have h' : (Except.ok f0 : Except Str Family) = .ok fam' := h
    cases h'
    exact ⟨fun m hm => hm, by simp, le_refl _, fun hp => hp⟩
  | cons p ps ih =>
    intro f0 fam' h
    cases hcs : corrStep events cc_min f0 p with
    | error m =>
      rw [exFoldl_cons_error (corrStep events cc_min) f0 p ps m hcs] at h
      cases h
    | ok f1 =>
      rw [exFoldl_cons_ok (corrStep events cc_min) f0 p ps f1 hcs] at h
      rcases ih f1 fam' h with ⟨hsub2, hcorr2, hlen2, hpw2⟩
      unfold corrStep at hcs
      by_cases hlt : p.2 < cc_min
      · rw [if_pos hlt] at hcs
        have h' : (Except.ok f0 : Except Str Family) = .ok f1 := hcs
        cases h'
        refine ⟨hsub2, ?_, hlen2, hpw2⟩
        intro q hq hqlt f hf
        rcases List.mem_cons.mp hq with hq | hq
        · exact absurd (hq ▸ hlt) hqlt
        · exact hcorr2 q hq hqlt f hf
      · rw [if_neg hlt] at hcs
        cases hlk : eventsLookup events p.1 with
        | none =>
          rw [hlk] at hcs
          cases hcs
        | some ev2 =>
          rw [hlk] at hcs
          rcases append_ok_props f0 ev2 f1 hcs with ⟨hsub1, hpm1, hlen1, hpw1⟩
          refine ⟨fun m hm => hsub2 m (hsub1 m hm), ?_,
            le_trans hlen1 hlen2, fun hp => hpw2 (hpw1 hp)⟩
          intro q hq hqlt f hf
          rcases List.mem_cons.mp hq with hq | hq
          · rcases hpm1 with ⟨m, hm, hpe⟩
            have hfe : f = ev2 := by
              rw [hq] at hf
              rw [hf] at hlk
              cases hlk
              rfl
            exact hfe ▸ ⟨m, hsub2 m hm, hpe⟩
          · exact hcorr2 q hq hqlt f hf

/-- Results of a successful `buildNewFamily`: the seed event and every
above-threshold partner found in the dictionary are members, the family is
nonempty, and its members are `__eq__`-pairwise distinct. -/
theorem buildNewFamily_props (events : List (Str × RequakeEvent))
    (cc_min : ℚ) (ev : RequakeEvent) (nf : Family)
    (h : buildNewFamily events cc_min ev = .ok nf) :
    pyMem ev nf.members ∧
    (∀ p ∈ ev.correlations, ¬ p.2 < cc_min →
      ∀ f, eventsLookup events p.1 = some f → pyMem f nf.members) ∧
    1 ≤ nf.members.length ∧
    nf.members.Pairwise (fun a b => eventPyEq a b = false) := by
  have h' : exFoldl (corrStep events cc_min) ⟨[ev], ev.trace_id⟩
      ev.correlations = .ok nf := h
  rcases corrFold_props events cc_min ev.correlations ⟨[ev], ev.trace_id⟩
    nf h' with ⟨hsub, hcorr, hlen, hpw⟩
  refine ⟨⟨ev, hsub ev (by simp), eventPyEq_refl ev⟩, hcorr, ?_,
    hpw (by simp)⟩
  simpa using hlen

/-- Results of a successful `insertNewFamily`: every old family survives
into some (possibly extended) result family, the candidate's members are
all `__eq__`-present in some result family, and every result family is an
old family, the candidate itself, or an old family extended with the
candidate's members. -/
theorem insertNewFamily_props :
    ∀ (fams : List Family) (nf : Family) (fams' : List Family),
    insertNewFamily fams nf = .ok fams' →
    (∀ g ∈ fams, ∃ g' ∈ fams', ∀ m ∈ g.members, m ∈ g'.members) ∧
    (∃ g' ∈ fams', ∀ m ∈ nf.members, pyMem m g'.members) ∧
    (∀ g' ∈ fams', g' ∈ fams ∨ g' = nf ∨
      ∃ g ∈ fams, Family.extend g nf.members = .ok g') := by
  intro fams
  induction fams with
  | nil =>
    intro nf fams' h
    have h' : (Except.ok [nf] : Except Str (List Family)) = .ok fams' := h
    cases h'
    refine ⟨by simp, ⟨nf, by simp, fun m hm => ⟨m, hm, eventPyEq_refl m⟩⟩, ?_⟩
    intro g' hg'
    have hg : g' = nf := by simpa using hg'
    exact Or.inr (Or.inl hg)
  | cons f fs ih =>
    intro nf fams' h
    unfold insertNewFamily at h
    by_cases hint : familiesIntersect f nf
    · rw [if_pos hint] at h
      cases hext : Family.extend f nf.members with
      | error m =>
        rw [hext] at h
        have h' : (Except.error m : Except Str (List Family)) =
            .ok fams' := h
        cases h'
      | ok f' =>
        rw [hext] at h
        have h' : (Except.ok (f' :: fs) : Except Str (List Family)) =
            .ok fams' := h
        cases h'
        rcases extend_ok_props nf.members f f' hext with ⟨hsub, hpm, _, _⟩
        refine ⟨?_, ⟨f', by simp, hpm⟩, ?_⟩
        · intro g hg
          rcases List.mem_cons.mp hg with hg | hg
          · exact ⟨f', by simp, hg ▸ hsub⟩
          · exact ⟨g, by simp [hg], fun m hm => hm⟩
        · intro g' hg'
          rcases List.mem_cons.mp hg' with hg' | hg'
          · exact Or.inr (Or.inr ⟨f, by simp, hg' ▸ hext⟩)
          · exact Or.inl (by simp [hg'])
    · rw [if_neg hint] at h
      cases hins : insertNewFamily fs nf with
      | error m =>
        rw [hins] at h
        have h' : (Except.error m : Except Str (List Family)) =
            .ok fams' := h
        cases h'
      | ok fs' =>
        rw [hins] at h
        have h' : (Except.ok (f :: fs') : Except Str (List Family)) =
            .ok fams' := h
        cases h'
        rcases ih nf fs' hins with ⟨ha, hb, hc⟩
        refine ⟨?_, ?_, ?_⟩
        · intro g hg
          rcases List.mem_cons.mp hg with hg | hg
          · exact ⟨f, by simp, hg ▸ fun m hm => hm⟩
          · rcases ha g hg with ⟨g', hg', hsub⟩
            exact ⟨g', by simp [hg'], hsub⟩
        · rcases hb with ⟨g', hg', hsub⟩
          exact ⟨g', by simp [hg'], hsub⟩
        · intro g' hg'
          rcases List.mem_cons.mp hg' with hg' | hg'
          · exact Or.inl (by simp [hg'])
          · rcases hc g' hg' with hcc | hcc | ⟨g, hg, hgext⟩
            · exact Or.inl (by simp [hcc])
            · exact Or.inr (Or.inl hcc)
            · exact Or.inr (Or.inr ⟨g, by simp [hg], hgext⟩)

/-- A list `__eq__`-containing two `__eq__`-distinct events has at least
two elements. -/
theorem two_pyMem_length {e f : RequakeEvent} {l : List RequakeEvent}
    (he : pyMem e l) (hf : pyMem f l) (hne : eventPyEq e f = false) :
    2 ≤ l.length := by
  rcases he with ⟨m1, hm1, he1⟩
  rcases hf with ⟨m2, hm2, hf1⟩
  have hne12 : m1 ≠ m2 := by
    intro hm
    rw [eventPyEq_trans he1 (eventPyEq_symm (hm ▸ hf1))] at hne
    cases hne
  cases l with
  | nil => cases hm1
  | cons x t =>
    cases t with
    | nil =>
      have h1 : m1 = x := by simpa using hm1
      have h2 : m2 = x := by simpa using hm2
      exact absurd (h1.trans h2.symm) hne12
    | cons y t' =>
      simp only [List.length_cons]
      omega

/-- `__eq__`-membership transported along `__eq__`-membership of all
elements. -/
theorem pyMem_trans {e : RequakeEvent} {l l' : List RequakeEvent}
    (he : pyMem e l) (hsub : ∀ m ∈ l, pyMem m l') : pyMem e l' := by
  rcases he with ⟨m, hm, hpe⟩
  rcases hsub m hm with ⟨m', hm', hpe'⟩
  exact ⟨m', hm', eventPyEq_trans hpe hpe'⟩

/-- One step of the family-building loop: the min-two-members invariant is
preserved, every accumulated family survives into some result family, and
any above-threshold partner of the processed event that is
`__eq__`-distinct from it lands with it in some result family. -/
theorem buildStep_props (events : List (Str × RequakeEvent)) (cc_min : ℚ)
    (acc : List Family) (p : Str × RequakeEvent) (acc' : List Family)
    (h : buildStep events cc_min acc p = .ok acc') :
    ((∀ g ∈ acc, 2 ≤ g.members.length ∧
        g.members.Pairwise (fun a b => eventPyEq a b = false)) →
      ∀ g ∈ acc', 2 ≤ g.members.length ∧
        g.members.Pairwise (fun a b => eventPyEq a b = false)) ∧
    (∀ g ∈ acc, ∃ g' ∈ acc', ∀ m ∈ g.members, m ∈ g'.members) ∧
    (∀ (fid : Str) (c : ℚ), (fid, c) ∈ p.2.correlations → ¬ c < cc_min →
      ∀ f, eventsLookup events fid = some f → eventPyEq p.2 f = false →
      ∃ g' ∈ acc', pyMem p.2 g'.members ∧ pyMem f g'.members) := by
  unfold buildStep at h
  cases hnf : buildNewFamily events cc_min p.2 with
  | error m =>
    rw [hnf] at h
    have h' : (Except.error m : Except Str (List Family)) = .ok acc' := h
    cases h'
  | ok nf =>
    rw [hnf] at h
    have h2 : (if nf.members.length = 1 then Except.ok acc
        else insertNewFamily acc nf) = .ok acc' := h
    rcases buildNewFamily_props events cc_min p.2 nf hnf with
      ⟨hpme, hcorr, hlen1, hpwnf⟩
    by_cases hone : nf.members.length = 1
    · rw [if_pos hone] at h2
      have h' : (Except.ok acc : Except Str (List Family)) = .ok acc' := h2
      cases h'
      refine ⟨fun hall => hall, fun g hg => ⟨g, hg, fun m hm => hm⟩, ?_⟩
      intro fid c hc hclt f hf hnef
      exfalso
      have hge := two_pyMem_length hpme (hcorr (fid, c) hc hclt f hf) hnef
      omega
    · rw [if_neg hone] at h2
      rcases insertNewFamily_props acc nf acc' h2 with ⟨ha, hb, hc⟩
      refine ⟨?_, ha, ?_⟩
      · intro hall g' hg'
        rcases hc g' hg' with hg | hg | ⟨g, hg, hgext⟩
        · exact hall g' hg
        · rw [hg]
          exact ⟨by omega, hpwnf⟩
        · rcases extend_ok_props nf.members g g' hgext with
            ⟨_, _, hlg, hpwg⟩
          exact ⟨le_trans (hall g hg).1 hlg, hpwg (hall g hg).2⟩
      · intro fid c hc2 hclt f hf hnef
        rcases hb with ⟨g', hg', hsub⟩
        exact ⟨g', hg', pyMem_trans hpme hsub,
          pyMem_trans (hcorr (fid, c) hc2 hclt f hf) hsub⟩

/-- The family-building fold preserves the min-two-members and
pairwise-distinctness invariant. -/
theorem buildFold_invariant (events : List (Str × RequakeEvent))
    (cc_min : ℚ) :
    ∀ (todo : List (Str × RequakeEvent)) (acc out : List Family),
    exFoldl (buildStep events cc_min) acc todo = .ok out →
    (∀ g ∈ acc, 2 ≤ g.members.length ∧
      g.members.Pairwise (fun a b => eventPyEq a b = false)) →
    ∀ g ∈ out, 2 ≤ g.members.length ∧
      g.members.Pairwise (fun a b => eventPyEq a b = false) := by
  intro todo
  induction todo with
  | nil =>
    intro acc out h hacc
    have h' : (Except.ok acc : Except Str (List Family)) = .ok out := h
    cases h'
    exact hacc
  | cons p ps ih =>
    intro acc out h hacc
    cases hs : buildStep events cc_min acc p with
    | error m =>
      rw [exFoldl_cons_error (buildStep events cc_min) acc p ps m hs] at h
      cases h
    | ok acc1 =>
      rw [exFoldl_cons_ok (buildStep events cc_min) acc p ps acc1 hs] at h
      exact ih acc1 out h
        ((buildStep_props events cc_min acc p acc1 hs).1 hacc)

/-- Each accumulated family survives (as a member-superset) into the
result of the family-building fold. -/
theorem buildFold_mono (events : List (Str × RequakeEvent)) (cc_min : ℚ) :
    ∀ (todo : List (Str × RequakeEvent)) (acc out : List Family),
    exFoldl (buildStep events cc_min) acc todo = .ok out →
    ∀ g ∈ acc, ∃ g' ∈ out, ∀ m ∈ g.members, m ∈ g'.members := by
  intro todo
  induction todo with
  | nil =>
    intro acc out h
    have h' : (Except.ok acc : Except Str (List Family)) = .ok out := h
    cases h'
    exact fun g hg => ⟨g, hg, fun m hm => hm⟩
  | cons p ps ih =>
    intro acc out h g hg
    cases hs : buildStep events cc_min acc p with
    | error m =>
      rw [exFoldl_cons_error (buildStep events cc_min) acc p ps m hs] at h
      cases h
    | ok acc1 =>
      rw [exFoldl_cons_ok (buildStep events cc_min) acc p ps acc1 hs] at h
      rcases (buildStep_props events cc_min acc p acc1 hs).2.1 g hg with
        ⟨g1, hg1, hsub1⟩
      rcases ih acc1 out h g1 hg1 with ⟨g', hg', hsub2⟩
      exact ⟨g', hg', fun m hm => hsub2 m (hsub1 m hm)⟩

/-- Any above-threshold correlated partner of any event processed by the
family-building fold ends up in a common result family with it. -/
theorem buildFold_catch (events : List (Str × RequakeEvent)) (cc_min : ℚ) :
    ∀ (todo : List (Str × RequakeEvent)) (acc out : List Family),
    exFoldl (buildStep events cc_min) acc todo = .ok out →
    ∀ (k : Str) (e : RequakeEvent), (k, e) ∈ todo →
    ∀ (fid : Str) (c : ℚ), (fid, c) ∈ e.correlations → ¬ c < cc_min →
    ∀ f, eventsLookup events fid = some f → eventPyEq e f = false →
    ∃ g' ∈ out, pyMem e g'.members ∧ pyMem f g'.members := by
  intro todo
  induction todo with
  | nil =>
    intro acc out h k e hke
    cases hke
  | cons p ps ih =>
    intro acc out h k e hke fid c hc hclt f hf hnef
    cases hs : buildStep events cc_min acc p with
    | error m =>
      rw [exFoldl_cons_error (buildStep events cc_min) acc p ps m hs] at h
      cases h
    | ok acc1 =>
      rw [exFoldl_cons_ok (buildStep events cc_min) acc p ps acc1 hs] at h
      rcases List.mem_cons.mp hke with hke | hke
      · have he : e = p.2 := congrArg Prod.snd hke
        rcases (buildStep_props events cc_min acc p acc1 hs).2.2 fid c
            (he ▸ hc) hclt f hf (he ▸ hnef) with ⟨g1, hg1, hpe, hpf⟩
        rcases buildFold_mono events cc_min ps acc1 out h g1 hg1 with
          ⟨g', hg', hsub⟩
        rcases hpe with ⟨m1, hm1, hpm1⟩
        rcases hpf with ⟨m2, hm2, hpm2⟩
        refine ⟨g', hg', ⟨m1, hsub m1 hm1, ?_⟩, ⟨m2, hsub m2 hm2, hpm2⟩⟩
        rw [he]
        exact hpm1
      · exact ih acc1 out h k e hke fid c hc hclt f hf hnef

/-- C6: a successful run of the shared-event family builder
(`_build_families_from_shared_events`) returns only families with at
least two pairwise-`__eq__`-distinct members, and for any event `e` of
the dictionary carrying a recorded correlation `cc(e, f) >= cc_min` to a
dictionary event `f` distinct from `e` (Python `__eq__`), some returned
family contains both `e` and `f`. -/
theorem C6_shared_event_families (events : List (Str × RequakeEvent))
    (cc_min : ℚ) (fams : List Family)
    (hok : _build_families_from_shared_events events cc_min = .ok fams) :
    (∀ fam ∈ fams, 2 ≤ fam.members.length ∧
      fam.members.Pairwise (fun a b => eventPyEq a b = false)) ∧
    (∀ (k : Str) (e : RequakeEvent), (k, e) ∈ events →
      ∀ (fid : Str) (c : ℚ), (fid, c) ∈ e.correlations → ¬ c < cc_min →
      ∀ f, eventsLookup events fid = some f → eventPyEq e f = false →
      ∃ fam ∈ fams, pyMem e fam.members ∧ pyMem f fam.members) := by
  have h : exFoldl (buildStep events cc_min) [] events = .ok fams := hok
  exact ⟨buildFold_invariant events cc_min events [] fams h (by simp),
    fun k e hke fid c hc hclt f hf hnef =>
      buildFold_catch events cc_min events [] fams h k e hke fid c hc hclt
        f hf hnef⟩

/-- Witness for C6 on the two-event fixture dictionary: the builder
returns the single two-member family `famXY`, which contains both fixture
events. -/
theorem C6_shared_event_families_witness :
    2 ≤ famXY.members.length ∧ pyMem evX famXY.members ∧
      pyMem evY famXY.members := by
  have hmain := C6_shared_event_families eventsXY 0 [famXY] rfl
  rcases hmain.2 ("x".data) evX (by simp [eventsXY]) ("y".data) 1
      (by simp [evX]) (by norm_num) evY rfl (by decide) with
    ⟨fam, hf, h1, h2⟩
  have hfam : fam = famXY := by simpa using hf
  exact ⟨(hmain.1 famXY (by simp)).1, hfam ▸ h1, hfam ▸ h2⟩

theorem digitVal?_digitChar {k : ℕ} (h : k < 10) :
    digitVal? (digitChar k) = some k := by
  interval_cases k <;> rfl

/-- The decimal digit characters are framing-safe and are neither the
fraction bar nor a minus sign. -/
theorem digitChar_props {k : ℕ} (h : k < 10) :
    cleanChar (digitChar k) = true ∧ digitChar k ≠ '/' ∧
      digitChar k ≠ '-' := by
  interval_cases k <;> exact ⟨rfl, by decide, by decide⟩

theorem digitsValAux_append : ∀ (s : Str) (acc : ℕ) (t : Str),
    digitsValAux acc (s ++ t) =
      match digitsValAux acc s with
      | some v => digitsValAux v t
      | none => none := by
  intro s
  induction s with
  | nil =>
    intro acc t
    rfl
  | cons c cs ih =>
    intro acc t
    show digitsValAux acc (c :: (cs ++ t)) =
      (match digitsValAux acc (c :: cs) with
       | some v => digitsValAux v t
       | none => none)
    cases hdv : digitVal? c with
    | none =>
      have h1 : digitsValAux acc (c :: (cs ++ t)) = none := by
        show (match digitVal? c with
          | none => none
          | some d => digitsValAux (acc * 10 + d) (cs ++ t)) = none
        rw [hdv]
      have h2 : digitsValAux acc (c :: cs) = none := by
        show (match digitVal? c with
          | none => none
          | some d => digitsValAux (acc * 10 + d) cs) = none
        rw [hdv]
      rw [h1, h2]
    | some d =>
      have h1 : digitsValAux acc (c :: (cs ++ t)) =
          digitsValAux (acc * 10 + d) (cs ++ t) := by
        show (match digitVal? c with
          | none => none
          | some d => digitsValAux (acc * 10 + d) (cs ++ t)) = _
        rw [hdv]
      have h2 : digitsValAux acc (c :: cs) =
          digitsValAux (acc * 10 + d) cs := by
        show (match digitVal? c with
          | none => none
          | some d => digitsValAux (acc * 10 + d) cs) = _
        rw [hdv]
      rw [h1, h2, ih (acc * 10 + d) t]

/-- Decimal rendering is nonempty, consists of digit characters, and
parses back (under any accumulator) to the rendered value. -/
theorem natToDigitsAux_spec : ∀ (fuel n : ℕ), n < fuel →
    (∀ acc, ∃ e, 0 < e ∧ digitsValAux acc (natToDigitsAux fuel n) =
      some (acc * 10 ^ e + n)) ∧
    (∀ c ∈ natToDigitsAux fuel n, ∃ k, k < 10 ∧ c = digitChar k) ∧
    natToDigitsAux fuel n ≠ [] := by
  intro fuel
  induction fuel with
  | zero =>
    intro n h
    exact absurd h (Nat.not_lt_zero n)
  | succ fuel ih =>
    intro n h
    by_cases h10 : n < 10
    · have hd : natToDigitsAux (fuel + 1) n = [digitChar n] := by
        unfold natToDigitsAux
        rw [if_pos h10]
      rw [hd]
      refine ⟨fun acc => ⟨1, one_pos, ?_⟩, ?_, by simp⟩
      · show (match digitVal? (digitChar n) with
          | none => none
          | some d => digitsValAux (acc * 10 + d) []) =
          some (acc * 10 ^ 1 + n)
        rw [digitVal?_digitChar h10]
        show some (acc * 10 + n) = some (acc * 10 ^ 1 + n)
        norm_num
      · intro c hc
        have hcn : c = digitChar n := by simpa using hc
        exact ⟨n, h10, hcn⟩
    · have hd : natToDigitsAux (fuel + 1) n =
          natToDigitsAux fuel (n / 10) ++ [digitChar (n % 10)] := by
        show (if n < 10 then [digitChar n]
          else natToDigitsAux fuel (n / 10) ++ [digitChar (n % 10)]) = _
        rw [if_neg h10]
      have hlt : n / 10 < fuel := by
        have hdl := Nat.div_lt_self (show 0 < n by omega)
          (show 1 < 10 by norm_num)
        omega
      rcases ih (n / 10) hlt with ⟨hval, hdig, _⟩
      rw [hd]
      refine ⟨?_, ?_, by simp⟩
      · intro acc
        rcases hval acc with ⟨e, he, hv⟩
        refine ⟨e + 1, by omega, ?_⟩
        rw [digitsValAux_append, hv]
        show digitsValAux (acc * 10 ^ e + n / 10) [digitChar (n % 10)] = _
        show (match digitVal? (digitChar (n % 10)) with
          | none => none
          | some d => digitsValAux ((acc * 10 ^ e + n / 10) * 10 + d) []) = _
        rw [digitVal?_digitChar (Nat.mod_lt n (by norm_num))]
        show some ((acc * 10 ^ e + n / 10) * 10 + n % 10) =
          some (acc * 10 ^ (e + 1) + n)
        congr 1
        have hnm : n / 10 * 10 + n % 10 = n := by
          have := Nat.div_add_mod n 10
          omega
        calc (acc * 10 ^ e + n / 10) * 10 + n % 10
            = acc * (10 ^ e * 10) + (n / 10 * 10 + n % 10) := by ring
          _ = acc * 10 ^ (e + 1) + n := by rw [hnm, pow_succ]
      · intro c hc
        rcases List.mem_append.mp hc with hc | hc
        · exact hdig c hc
        · have hcc : c = digitChar (n % 10) := by simpa using hc
          exact ⟨n % 10, Nat.mod_lt n (by norm_num), hcc⟩

/-- `str(n)` is nonempty, all digits, and parses back to `n`. -/
theorem natToDigits_facts (n : ℕ) :
    parseNatDigits (natToDigits n) = some n ∧ natToDigits n ≠ [] ∧
    ∀ c ∈ natToDigits n, ∃ k, k < 10 ∧ c = digitChar k := by
  rcases natToDigitsAux_spec (n + 1) n (by omega) with ⟨hval, hdig, hne⟩
  refine ⟨?_, hne, hdig⟩
  have hie : (natToDigitsAux (n + 1) n).isEmpty = false := by
    cases hl : natToDigitsAux (n + 1) n with
    | nil => exact absurd hl hne
    | cons a l => rfl
  show parseNatDigits (natToDigitsAux (n + 1) n) = some n
  unfold parseNatDigits
  rw [if_neg (by simp [hie])]
  rcases hval 0 with ⟨e, _, hv⟩
  rw [hv]
  norm_num

/-- A value below `10 ^ k` needs at most `k` digits. -/
theorem natToDigitsAux_length : ∀ (fuel n k : ℕ), n < fuel → n < 10 ^ k →
    0 < k → (natToDigitsAux fuel n).length ≤ k := by
  intro fuel
  induction fuel with
  | zero =>
    intro n k h _ _
    exact absurd h (Nat.not_lt_zero n)
  | succ fuel ih =>
    intro n k h hk hk0
    by_cases h10 : n < 10
    · have hd : natToDigitsAux (fuel + 1) n = [digitChar n] := by
        unfold natToDigitsAux
        rw [if_pos h10]
      rw [hd]
      simpa using hk0
    · have hd : natToDigitsAux (fuel + 1) n =
          natToDigitsAux fuel (n / 10) ++ [digitChar (n % 10)] := by
        show (if n < 10 then [digitChar n]
          else natToDigitsAux fuel (n / 10) ++ [digitChar (n % 10)]) = _
        rw [if_neg h10]
      have hlt : n / 10 < fuel := by
        have hdl := Nat.div_lt_self (show 0 < n by omega)
          (show 1 < 10 by norm_num)
        omega
      have hk2 : 2 ≤ k := by
        by_contra hc
        have hk1 : k = 1 := by omega
        rw [hk1] at hk
        simp at hk
        omega
      have hpow : 10 ^ (k - 1) * 10 = 10 ^ k := by
        rw [← pow_succ]
        congr 1
        omega
      have hdiv : n / 10 < 10 ^ (k - 1) := by
        rw [Nat.div_lt_iff_lt_mul (by norm_num : (0:ℕ) < 10), hpow]
        exact hk
      have hlen := ih (n / 10) (k - 1) hlt hdiv (by omega)
      rw [hd, List.length_append]
      simp only [List.length_cons, List.length_nil]
      omega

theorem digitsValAux_zeros : ∀ (k : ℕ) (s : Str),
    digitsValAux 0 (List.replicate k '0' ++ s) = digitsValAux 0 s := by
  intro k
  induction k with
  | zero =>
    intro s
    rfl
  | succ k ih =>
    intro s
    show digitsValAux 0 ('0' :: (List.replicate k '0' ++ s)) = digitsValAux 0 s
    exact ih s

/-- The zero-padded rendering has exactly the requested width, parses back
to the value, and consists of digit characters. -/
theorem padNat_spec (w n : ℕ) (hw : 0 < w) (hn : n < 10 ^ w) :
    (padNat w n).length = w ∧ digitsValAux 0 (padNat w n) = some n ∧
    ∀ c ∈ padNat w n, ∃ k, k < 10 ∧ c = digitChar k := by
  have hfacts := natToDigits_facts n
  have hlen : (natToDigits n).length ≤ w :=
    natToDigitsAux_length (n + 1) n w (by omega) hn hw
  refine ⟨?_, ?_, ?_⟩
  · show (List.replicate (w - (natToDigits n).length) '0' ++
      natToDigits n).length = w
    rw [List.length_append, List.length_replicate]
    omega
  · show digitsValAux 0 (List.replicate (w - (natToDigits n).length) '0' ++
      natToDigits n) = some n
    rw [digitsValAux_zeros]
    have hv := hfacts.1
    unfold parseNatDigits at hv
    have hie : (natToDigits n).isEmpty = false := by
      cases hl : natToDigits n with
      | nil => exact absurd hl hfacts.2.1
      | cons a l => rfl
    rw [if_neg (by simp [hie])] at hv
    exact hv
  · intro c hc
    rcases List.mem_append.mp hc with hc | hc
    · have hc0 : c = '0' := by
        have := List.eq_of_mem_replicate hc
        exact this
      exact ⟨0, by norm_num, hc0⟩
    · exact hfacts.2.2 c hc

theorem list_len2 {α : Type} (l : List α) (h : l.length = 2) :
    ∃ a b, l = [a, b] := by
  cases l with
  | nil => cases h
  | cons a l1 =>
    cases l1 with
    | nil => cases h
    | cons b l2 =>
      cases l2 with
      | nil => exact ⟨a, b, rfl⟩
      | cons c l3 => simp at h

theorem list_len4 {α : Type} (l : List α) (h : l.length = 4) :
    ∃ a b c d, l = [a, b, c, d] := by
  cases l with
  | nil => cases h
  | cons a l1 =>
    cases l1 with
    | nil => cases h
    | cons b l2 =>
      cases l2 with
      | nil => cases h
      | cons c l3 =>
        cases l3 with
        | nil => cases h
        | cons d l4 =>
          cases l4 with
          | nil => exact ⟨a, b, c, d, rfl⟩
          | cons e l5 => simp at h

/-- The rendered timestamp parses back with microseconds zeroed. -/
theorem parseTime_renderTime (t : UTCTime) (h : GoodTime t) :
    parseTime (renderTime t) =
      some ⟨t.year, t.month, t.day, t.hour, t.minute, t.second, 0⟩ := by
  obtain ⟨hy, hmo, hd, hh, hmi, hs⟩ := h
  obtain ⟨hylen, hyval, _⟩ :=
    padNat_spec 4 t.year (by norm_num) (lt_of_le_of_lt hy (by norm_num))
  obtain ⟨hmolen, hmoval, _⟩ :=
    padNat_spec 2 t.month (by norm_num) (lt_of_le_of_lt hmo (by norm_num))
  obtain ⟨hdlen, hdval, _⟩ :=
    padNat_spec 2 t.day (by norm_num) (lt_of_le_of_lt hd (by norm_num))
  obtain ⟨hhlen, hhval, _⟩ :=
    padNat_spec 2 t.hour (by norm_num) (lt_of_le_of_lt hh (by norm_num))
  obtain ⟨hmilen, hmival, _⟩ :=
    padNat_spec 2 t.minute (by norm_num) (lt_of_le_of_lt hmi (by norm_num))
  obtain ⟨hslen, hsval, _⟩ :=
    padNat_spec 2 t.second (by norm_num) (lt_of_le_of_lt hs (by norm_num))
  rcases list_len4 (padNat 4 t.year) hylen with ⟨y1, y2, y3, y4, hy4⟩
  rcases list_len2 (padNat 2 t.month) hmolen with ⟨m1, m2, hmo2⟩
  rcases list_len2 (padNat 2 t.day) hdlen with ⟨d1, d2, hd2⟩
  rcases list_len2 (padNat 2 t.hour) hhlen with ⟨g1, g2, hh2⟩
  rcases list_len2 (padNat 2 t.minute) hmilen with ⟨n1, n2, hmi2⟩
  rcases list_len2 (padNat 2 t.second) hslen with ⟨s1, s2, hs2⟩
  rw [hy4] at hyval
  rw [hmo2] at hmoval
  rw [hd2] at hdval
  rw [hh2] at hhval
  rw [hmi2] at hmival
  rw [hs2] at hsval
  have hr : renderTime t =
      [y1, y2, y3, y4, '-', m1, m2, '-', d1, d2, 'T',
       g1, g2, ':', n1, n2, ':', s1, s2] := by
    unfold renderTime
    rw [hy4, hmo2, hd2, hh2, hmi2, hs2]
    rfl
  rw [hr]
  show mkTime (digitsValAux 0 [y1, y2, y3, y4]) (digitsValAux 0 [m1, m2])
      (digitsValAux 0 [d1, d2]) (digitsValAux 0 [g1, g2])
      (digitsValAux 0 [n1, n2]) (digitsValAux 0 [s1, s2]) = _
  rw [hyval, hmoval, hdval, hhval, hmival, hsval]
  rfl

theorem splitSep_cons (sep c : Char) (l : Str) :
    splitSep sep (c :: l) =
      if c = sep then [] :: splitSep sep l
      else match splitSep sep l with
        | [] => [[c]]
        | w :: ws => (c :: w) :: ws := rfl

theorem splitSep_nosep (sep : Char) : ∀ (f : Str), (∀ c ∈ f, c ≠ sep) →
    splitSep sep f = [f] := by
  intro f
  induction f with
  | nil =>
    intro _
    rfl
  | cons c cs ih =>
    intro h
    rw [splitSep_cons, if_neg (h c (by simp)),
      ih (fun x hx => h x (by simp [hx]))]

theorem splitSep_field (sep : Char) : ∀ (f rest : Str),
    (∀ c ∈ f, c ≠ sep) →
    splitSep sep (f ++ sep :: rest) = f :: splitSep sep rest := by
  intro f
  induction f with
  | nil =>
    intro rest _
    show splitSep sep (sep :: rest) = [] :: splitSep sep rest
    rw [splitSep_cons, if_pos rfl]
  | cons c cs ih =>
    intro rest h
    show splitSep sep (c :: (cs ++ sep :: rest)) = (c :: cs) :: splitSep sep rest
    rw [splitSep_cons, if_neg (h c (by simp)),
      ih rest (fun x hx => h x (by simp [hx]))]

/-- Splitting undoes joining when no field contains the separator. -/
theorem splitSep_joinSep (sep : Char) : ∀ (fs : List Str), fs ≠ [] →
    (∀ f ∈ fs, ∀ c ∈ f, c ≠ sep) →
    splitSep sep (joinSep sep fs) = fs := by
  intro fs
  induction fs with
  | nil =>
    intro h _
    exact absurd rfl h
  | cons f rest ih =>
    intro _ hall
    cases rest with
    | nil =>
      show splitSep sep f = [f]
      exact splitSep_nosep sep f (hall f (by simp))
    | cons g rest2 =>
      show splitSep sep (f ++ sep :: joinSep sep (g :: rest2)) =
        f :: g :: rest2
      rw [splitSep_field sep f _ (hall f (by simp)),
        ih (by simp) (fun x hx c hc => hall x (by simp [hx]) c hc)]

theorem dropWhile_clean (l : Str) (h : ∀ c ∈ l, isPySpace c = false) :
    l.dropWhile isPySpace = l := by
  cases l with
  | nil => rfl
  | cons c cs =>
    rw [List.dropWhile_cons]
    simp [h c (by simp)]

/-- Stripping a written line (content plus trailing newline) recovers the
content when the content has no whitespace characters. -/
theorem pyStrip_clean_newline : ∀ (l : Str),
    (∀ c ∈ l, isPySpace c = false) → pyStrip (l ++ ['\n']) = l := by
  intro l h
  cases l with
  | nil => rfl
  | cons c cs =>
    have h1 : ((c :: cs) ++ ['\n']).dropWhile isPySpace =
        (c :: cs) ++ ['\n'] := by
      show (c :: (cs ++ ['\n'])).dropWhile isPySpace = c :: (cs ++ ['\n'])
      rw [List.dropWhile_cons]
      simp [h c (by simp)]
    unfold pyStrip
    rw [h1]
    have h2 : ((c :: cs) ++ ['\n']).reverse =
        '\n' :: (c :: cs).reverse := by
      rw [List.reverse_append]
      rfl
    rw [h2]
    rw [List.dropWhile_cons]
    have hnl : isPySpace '\n' = true := rfl
    simp only [hnl, if_true]
    rw [dropWhile_clean _ (fun x hx => h x (List.mem_reverse.mp hx))]
    rw [List.reverse_reverse]

theorem cleanChar_props {c : Char} (h : cleanChar c = true) :
    isPySpace c = false ∧ c ≠ '|' ∧ c ≠ '#' := by
  unfold cleanChar at h
  simp only [Bool.and_eq_true, Bool.not_eq_true'] at h
  refine ⟨h.1.1, ?_, ?_⟩
  · intro hc
    rw [hc] at h
    simp at h
  · intro hc
    rw [hc] at h
    simp at h

/-- Every character of a joined string is the separator or comes from one
of the fields. -/
theorem joinSep_chars (sep : Char) : ∀ (fs : List Str) (c : Char),
    c ∈ joinSep sep fs → c = sep ∨ ∃ f ∈ fs, c ∈ f := by
  intro fs
  induction fs with
  | nil =>
    intro c hc
    cases hc
  | cons f rest ih =>
    intro c hc
    cases rest with
    | nil => exact Or.inr ⟨f, by simp, hc⟩
    | cons g rest2 =>
      have hc2 : c ∈ f ++ sep :: joinSep sep (g :: rest2) := hc
      rcases List.mem_append.mp hc2 with hcf | hcs
      · exact Or.inr ⟨f, by simp, hcf⟩
      · rcases List.mem_cons.mp hcs with hcsep | hcj
        · exact Or.inl hcsep
        · rcases ih c hcj with h1 | ⟨f2, hf2, hcf2⟩
          · exact Or.inl h1
          · exact Or.inr ⟨f2, by simp [hf2], hcf2⟩

theorem parseNonnegRat_digits (n : ℕ) :
    parseNonnegRat (natToDigits n) = some (n : ℚ) := by
  have hf := natToDigits_facts n
  unfold parseNonnegRat
  rw [splitSep_nosep '/' _ (fun c hc => by
    rcases hf.2.2 c hc with ⟨k, hk, hck⟩
    rw [hck]
    exact (digitChar_props hk).2.1)]
  show (parseNatDigits (natToDigits n)).map (fun k => (k : ℚ)) = some (n : ℚ)
  rw [hf.1]
  rfl

theorem parseNonnegRat_frac (n d : ℕ) (hd0 : d ≠ 0) :
    parseNonnegRat (natToDigits n ++ '/' :: natToDigits d) =
      some ((n : ℚ) / (d : ℚ)) := by
  have hfn := natToDigits_facts n
  have hfd := natToDigits_facts d
  unfold parseNonnegRat
  rw [splitSep_field '/' _ _ (fun c hc => by
      rcases hfn.2.2 c hc with ⟨k, hk, hck⟩
      rw [hck]
      exact (digitChar_props hk).2.1),
    splitSep_nosep '/' _ (fun c hc => by
      rcases hfd.2.2 c hc with ⟨k, hk, hck⟩
      rw [hck]
      exact (digitChar_props hk).2.1)]
  show ratOfParts (parseNatDigits (natToDigits n))
      (parseNatDigits (natToDigits d)) = some ((n : ℚ) / (d : ℚ))
  rw [hfn.1, hfd.1]
  show (if d = 0 then none else some ((n : ℚ) / (d : ℚ))) = _
  rw [if_neg hd0]

theorem float_or_none_no_dash (l : Str) (h : ∀ r : Str, l ≠ '-' :: r) :
    float_or_none l = parseNonnegRat l := by
  rw [float_or_none.eq_def]
  split
  · exact absurd rfl (h _)
  · rfl

/-- The rendered rational parses back to the identical value. -/
theorem float_or_none_ratRender (q : ℚ) :
    float_or_none (ratRender q) = some q := by
  have hdigits := natToDigits_facts q.num.natAbs
  have hbody : parseNonnegRat (natToDigits q.num.natAbs ++
      (if q.den = 1 then [] else '/' :: natToDigits q.den)) =
      some ((q.num.natAbs : ℚ) / (q.den : ℚ)) := by
    by_cases hden : q.den = 1
    · rw [if_pos hden, List.append_nil, parseNonnegRat_digits, hden]
      norm_num
    · rw [if_neg hden]
      exact parseNonnegRat_frac _ _ q.den_nz
  by_cases hq : q < 0
  · have hr : ratRender q = '-' :: (natToDigits q.num.natAbs ++
        (if q.den = 1 then [] else '/' :: natToDigits q.den)) := by
      unfold ratRender
      rw [if_pos hq]
      rfl
    rw [hr]
    show (parseNonnegRat (natToDigits q.num.natAbs ++
      (if q.den = 1 then [] else '/' :: natToDigits q.den))).map
        (fun x => -x) = some q
    rw [hbody]
    have hqn : q.num < 0 := by
      by_contra hc
      have h0 : 0 ≤ q := by
        rw [← Rat.num_nonneg]
        omega
      exact absurd hq (not_lt.mpr h0)
    have hnum : ((q.num.natAbs : ℚ)) = -(q.num : ℚ) := by
      rw [Int.cast_natAbs, abs_of_neg hqn]
      push_cast
      ring
    show some (-((q.num.natAbs : ℚ) / (q.den : ℚ))) = some q
    rw [hnum, neg_div, neg_neg, Rat.num_div_den]
  · have hr : ratRender q = natToDigits q.num.natAbs ++
        (if q.den = 1 then [] else '/' :: natToDigits q.den) := by
      unfold ratRender
      rw [if_neg hq]
      rfl
    have hnd : ∀ r : Str, natToDigits q.num.natAbs ++
        (if q.den = 1 then [] else '/' :: natToDigits q.den) ≠ '-' :: r := by
      intro r hc
      cases hl : natToDigits q.num.natAbs with
      | nil => exact absurd hl hdigits.2.1
      | cons c cs =>
        rw [hl] at hc
        have hc2 : c = '-' := by
          have hh := congrArg List.head? hc
          simpa using hh
        rcases hdigits.2.2 c (by rw [hl]; simp) with ⟨k, hk, hck⟩
        rw [hck] at hc2
        exact (digitChar_props hk).2.2 hc2
    rw [hr, float_or_none_no_dash _ hnd, hbody]
    have hqn : 0 ≤ q.num := by
      rw [Rat.num_nonneg]
      exact not_lt.mp hq
    have hnum : ((q.num.natAbs : ℚ)) = (q.num : ℚ) := by
      rw [Int.cast_natAbs, abs_of_nonneg hqn]
    rw [hnum, Rat.num_div_den]

/-- `float_or_none` is a left inverse of optional-number rendering. -/
theorem float_or_none_pyStrQ : ∀ (x : Option ℚ),
    float_or_none (pyStrQ x) = x := by
  intro x
  cases x with
  | none => rfl
  | some q => exact float_or_none_ratRender q

theorem natToDigits_clean (n : ℕ) :
    ∀ c ∈ natToDigits n, cleanChar c = true := by
  intro c hc
  rcases (natToDigits_facts n).2.2 c hc with ⟨k, hk, hck⟩
  rw [hck]
  exact (digitChar_props hk).1

theorem ratRender_clean (q : ℚ) : ∀ c ∈ ratRender q, cleanChar c = true := by
  intro c hc
  unfold ratRender at hc
  rcases List.mem_append.mp hc with hc1 | hc2
  · rcases List.mem_append.mp hc1 with hca | hcb
    · by_cases hq : q < 0
      · rw [if_pos hq] at hca
        have hcd : c = '-' := by simpa using hca
        rw [hcd]
        rfl
      · rw [if_neg hq] at hca
        cases hca
    · exact natToDigits_clean _ c hcb
  · by_cases hd : q.den = 1
    · rw [if_pos hd] at hc2
      cases hc2
    · rw [if_neg hd] at hc2
      rcases List.mem_cons.mp hc2 with hcs | hcd
      · rw [hcs]
        rfl
      · exact natToDigits_clean _ c hcd

theorem pyStrQ_clean (x : Option ℚ) : ∀ c ∈ pyStrQ x, cleanChar c = true := by
  intro c hc
  cases x with
  | none =>
    have hc2 : c ∈ ['N', 'o', 'n', 'e'] := hc
    have hm : c = 'N' ∨ c = 'o' ∨ c = 'n' ∨ c = 'e' := by simpa using hc2
    rcases hm with rfl | rfl | rfl | rfl <;> rfl
  | some q => exact ratRender_clean q c hc

theorem pyStrS_clean (x : Option Str) (h : cleanOptStr x = true) :
    ∀ c ∈ pyStrS x, cleanChar c = true := by
  intro c hc
  cases x with
  | none =>
    have hc2 : c ∈ ['N', 'o', 'n', 'e'] := hc
    have hm : c = 'N' ∨ c = 'o' ∨ c = 'n' ∨ c = 'e' := by simpa using hc2
    rcases hm with rfl | rfl | rfl | rfl <;> rfl
  | some s =>
    have hall : s.all cleanChar = true := h
    rw [List.all_eq_true] at hall
    exact hall c hc

theorem renderTime_clean (t : UTCTime) (h : GoodTime t) :
    ∀ c ∈ renderTime t, cleanChar c = true := by
  obtain ⟨hy, hmo, hd, hh, hmi, hs⟩ := h
  intro c hc
  have hdig : ∀ (w n : ℕ), 0 < w → n < 10 ^ w → c ∈ padNat w n →
      cleanChar c = true := by
    intro w n hw hn hcmem
    rcases (padNat_spec w n hw hn).2.2 c hcmem with ⟨k, hk, hck⟩
    rw [hck]
    exact (digitChar_props hk).1
  unfold renderTime at hc
  simp only [List.mem_append, List.mem_cons, or_assoc] at hc
  rcases hc with hc | rfl | hc | rfl | hc | rfl | hc | rfl | hc | rfl | hc
  · exact hdig 4 t.year (by norm_num) (lt_of_le_of_lt hy (by norm_num)) hc
  · rfl
  · exact hdig 2 t.month (by norm_num) (lt_of_le_of_lt hmo (by norm_num)) hc
  · rfl
  · exact hdig 2 t.day (by norm_num) (lt_of_le_of_lt hd (by norm_num)) hc
  · rfl
  · exact hdig 2 t.hour (by norm_num) (lt_of_le_of_lt hh (by norm_num)) hc
  · rfl
  · exact hdig 2 t.minute (by norm_num) (lt_of_le_of_lt hmi (by norm_num)) hc
  · rfl
  · exact hdig 2 t.second (by norm_num) (lt_of_le_of_lt hs (by norm_num)) hc

theorem parseTimeE_some (s : Str) (t : UTCTime) (h : parseTime s = some t) :
    parseTimeE s = Except.ok t := by
  unfold parseTimeE
  rw [h]

/-- Characterization of `from_fdsn_text` on a line that strips and splits
into exactly 13 fields with a parsable timestamp. -/
theorem from_fdsn_text_of_split (line : Str) (g1 g2 g3 g4 g5 g6 g7 g8 g9
    g10 g11 g12 g13 : Str) (t : UTCTime)
    (hs : splitSep '|' (pyStrip line) =
      [g1, g2, g3, g4, g5, g6, g7, g8, g9, g10, g11, g12, g13])
    (ht : parseTime g2 = some t) :
    RequakeEvent.from_fdsn_text line = .ok
      { evid := g1, orig_time := t, lat := float_or_none g3,
        lon := float_or_none g4, depth := float_or_none g5,
        author := some g6, catalog := some g7, contributor := some g8,
        contributor_id := some g9, mag_type := some g10,
        mag := float_or_none g11, mag_author := some g12,
        location_name := some g13 } := by
  have htE := parseTimeE_some g2 t ht
  simp only [RequakeEvent.from_fdsn_text]
  rw [hs]
  show (parseTimeE g2 >>= fun u =>
    (Except.ok
      { evid := g1, orig_time := u, lat := float_or_none g3,
        lon := float_or_none g4, depth := float_or_none g5,
        author := some g6, catalog := some g7, contributor := some g8,
        contributor_id := some g9, mag_type := some g10,
        mag := float_or_none g11, mag_author := some g12,
        location_name := some g13 } : Except Str RequakeEvent)) = _
  rw [htE]
  rfl

/-- Under the framing conditions, each of the 13 rendered fields consists
of framing-safe characters. -/
theorem fdsn_fields_clean (ev : RequakeEvent) (h : GoodEvent ev) :
    ∀ f ∈ [ev.evid, renderTime ev.orig_time, pyStrQ ev.lat, pyStrQ ev.lon,
      pyStrQ ev.depth, pyStrS ev.author, pyStrS ev.catalog,
      pyStrS ev.contributor, pyStrS ev.contributor_id, pyStrS ev.mag_type,
      pyStrQ ev.mag, pyStrS ev.mag_author, pyStrS ev.location_name],
    ∀ c ∈ f, cleanChar c = true := by
  obtain ⟨he, ht, h1, h2, h3, h4, h5, h6, h7⟩ := h
  intro f hf
  simp only [List.mem_cons, List.not_mem_nil, or_false] at hf
  rcases hf with rfl | rfl | rfl | rfl | rfl | rfl | rfl | rfl | rfl | rfl
    | rfl | rfl | rfl
  · intro c hc
    rw [List.all_eq_true] at he
    exact he c hc
  · exact renderTime_clean ev.orig_time ht
  · exact pyStrQ_clean ev.lat
  · exact pyStrQ_clean ev.lon
  · exact pyStrQ_clean ev.depth
  · exact pyStrS_clean ev.author h1
  · exact pyStrS_clean ev.catalog h2
  · exact pyStrS_clean ev.contributor h3
  · exact pyStrS_clean ev.contributor_id h4
  · exact pyStrS_clean ev.mag_type h5
  · exact pyStrQ_clean ev.mag
  · exact pyStrS_clean ev.mag_author h6
  · exact pyStrS_clean ev.location_name h7

/-- One written line parses back to the lossy image of the event. -/
theorem fdsn_roundtrip_event (ev : RequakeEvent) (h : GoodEvent ev) :
    RequakeEvent.from_fdsn_text (ev.fdsn_text ++ ['\n']) =
      .ok (fdsnRoundTrip ev) := by
  have hfields := fdsn_fields_clean ev h
  have hnospace : ∀ c ∈ ev.fdsn_text, isPySpace c = false := by
    intro c hc
    have hc2 : c ∈ joinSep '|'
        [ev.evid, renderTime ev.orig_time, pyStrQ ev.lat, pyStrQ ev.lon,
         pyStrQ ev.depth, pyStrS ev.author, pyStrS ev.catalog,
         pyStrS ev.contributor, pyStrS ev.contributor_id, pyStrS ev.mag_type,
         pyStrQ ev.mag, pyStrS ev.mag_author, pyStrS ev.location_name] := hc
    rcases joinSep_chars '|' _ c hc2 with h1 | ⟨f, hf, hcf⟩
    · rw [h1]
      rfl
    · exact (cleanChar_props (hfields f hf c hcf)).1
  have hstrip : pyStrip (ev.fdsn_text ++ ['\n']) = ev.fdsn_text :=
    pyStrip_clean_newline _ hnospace
  have hsplit : splitSep '|' ev.fdsn_text =
      [ev.evid, renderTime ev.orig_time, pyStrQ ev.lat, pyStrQ ev.lon,
       pyStrQ ev.depth, pyStrS ev.author, pyStrS ev.catalog,
       pyStrS ev.contributor, pyStrS ev.contributor_id, pyStrS ev.mag_type,
       pyStrQ ev.mag, pyStrS ev.mag_author, pyStrS ev.location_name] := by
    show splitSep '|' (joinSep '|'
      [ev.evid, renderTime ev.orig_time, pyStrQ ev.lat, pyStrQ ev.lon,
       pyStrQ ev.depth, pyStrS ev.author, pyStrS ev.catalog,
       pyStrS ev.contributor, pyStrS ev.contributor_id, pyStrS ev.mag_type,
       pyStrQ ev.mag, pyStrS ev.mag_author, pyStrS ev.location_name]) = _
    exact splitSep_joinSep '|' _ (by simp)
      (fun f hf c hc => (cleanChar_props (hfields f hf c hc)).2.1)
  have hs : splitSep '|' (pyStrip (ev.fdsn_text ++ ['\n'])) =
      [ev.evid, renderTime ev.orig_time, pyStrQ ev.lat, pyStrQ ev.lon,
       pyStrQ ev.depth, pyStrS ev.author, pyStrS ev.catalog,
       pyStrS ev.contributor, pyStrS ev.contributor_id, pyStrS ev.mag_type,
       pyStrQ ev.mag, pyStrS ev.mag_author, pyStrS ev.location_name] := by
    rw [hstrip]
    exact hsplit
  have ht := parseTime_renderTime ev.orig_time h.2.1
  rw [from_fdsn_text_of_split _ _ _ _ _ _ _ _ _ _ _ _ _ _ _ hs ht]
  simp only [float_or_none_pyStrQ]
  rfl

/-- One step of the read loop on a written line: the line is neither falsy
nor a comment, and appends the parsed event. -/
theorem readStep_write (acc : List RequakeEvent) (ev : RequakeEvent)
    (h : GoodEvent ev) :
    readStep acc (ev.fdsn_text ++ ['\n']) =
      .ok (acc ++ [fdsnRoundTrip ev]) := by
  have hform : ev.fdsn_text = ev.evid ++ '|' :: joinSep '|'
      [renderTime ev.orig_time, pyStrQ ev.lat, pyStrQ ev.lon,
       pyStrQ ev.depth, pyStrS ev.author, pyStrS ev.catalog,
       pyStrS ev.contributor, pyStrS ev.contributor_id, pyStrS ev.mag_type,
       pyStrQ ev.mag, pyStrS ev.mag_author, pyStrS ev.location_name] := rfl
  have hie : (ev.fdsn_text ++ ['\n']).isEmpty = false := by
    rw [hform]
    cases ev.evid with
    | nil => rfl
    | cons c cs => rfl
  have hhash : ¬ (ev.fdsn_text ++ ['\n']).head? = some '#' := by
    rw [hform]
    cases hevid : ev.evid with
    | nil =>
      intro hc
      simp at hc
    | cons c cs =>
      intro hc
      have hcc : c = '#' := by simpa using hc
      have hcl : cleanChar c = true := by
        have he := h.1
        rw [hevid, List.all_eq_true] at he
        exact he c (by simp)
      exact (cleanChar_props hcl).2.2 hcc
  unfold readStep
  rw [if_neg (by simp [hie]), if_neg hhash, fdsn_roundtrip_event ev h]
  rfl

/-- The read loop over a written catalog accumulates the lossy images of
the written events, in order. -/
theorem readFold_write : ∀ (cat : List RequakeEvent),
    (∀ ev ∈ cat, GoodEvent ev) →
    ∀ acc, exFoldl readStep acc (catalogWrite cat) =
      .ok (acc ++ cat.map fdsnRoundTrip) := by
  intro cat
  induction cat with
  | nil =>
    intro _ acc
    show (Except.ok acc : Except Str (List RequakeEvent)) = .ok (acc ++ [])
    rw [List.append_nil]
  | cons ev evs ih =>
    intro h acc
    show exFoldl readStep acc
      ((ev.fdsn_text ++ ['\n']) :: catalogWrite evs) = _
    rw [exFoldl_cons_ok readStep acc _ _ _
      (readStep_write acc ev (h ev (by simp)))]
    rw [ih (fun e he => h e (by simp [he])) (acc ++ [fdsnRoundTrip ev])]
    simp

/-- C4 counterexample: writing and re-reading a one-event catalog does not
return the deduplicated time-sorted original: the event's `trace_id` is
not serialized, so the read-back event differs from the original both as a
Lean value and under Python `==` (which compares `evid` and `trace_id`). -/
theorem C4_roundtrip_counterexample :
    catalogRead (fun l => l) (catalogWrite [evT]) =
      .ok [fdsnRoundTrip evT] ∧
    pySetOfList (sortByTime [evT]) = [evT] ∧
    fdsnRoundTrip evT ≠ evT ∧
    catalogPyEq [fdsnRoundTrip evT] [evT] = false := by
  refine ⟨?_, rfl, by decide, by decide⟩
  rfl

/-- C4 (amended): reading back a written catalog of framing-safe events
yields some iteration order of the first-occurrence deduplication (by
Python `==`, i.e. on `evid` and `trace_id`) of the per-event lossy images
(microseconds, `trace_id` and correlations dropped, absent string fields
becoming the literal `"None"`), with no sorting applied. -/
theorem C4_catalog_roundtrip_amended
    (π : List RequakeEvent → List RequakeEvent) (hπ : OrderChoice π)
    (cat : List RequakeEvent) (hgood : ∀ ev ∈ cat, GoodEvent ev) :
    catalogRead π (catalogWrite cat) =
      .ok (π (pySetOfList (cat.map fdsnRoundTrip))) ∧
    (π (pySetOfList (cat.map fdsnRoundTrip))).Perm
      (pySetOfList (cat.map fdsnRoundTrip)) := by
  constructor
  · unfold catalogRead
    rw [readFold_write cat hgood []]
    rfl
  · exact hπ _

/-- Witness for C4 at a concrete one-event catalog with the identity
iteration order. -/
theorem C4_catalog_roundtrip_amended_witness :
    catalogRead (fun l => l) (catalogWrite [evT]) =
      .ok ((fun l => l) (pySetOfList ([evT].map fdsnRoundTrip))) :=
  (C4_catalog_roundtrip_amended (fun l => l) (fun l => List.Perm.refl l)
    [evT] (by decide)).1

end Requake
